import Mathlib

/-!
# SectorFlux-AI — verification of the specification against the source

Shallow embedding of the core of the repository:

* `py_module/database.py` — `upsert_market_data` (staging + MERGE upsert with
  deadlock retry), `prepare_tsf_features` (SQL feature engineering, in
  particular the 20-day rolling z-score), and `generate_net_flux_matrix`
  (the conservation-based net-flux allocation matrix);
* `py_module/crawler.py` — `_create_retry_session` (urllib3 Retry policy) and
  `_fetch_and_store_prices` (the 1825-day chunked fetch loop and the
  response-shape normalization).

Numeric values (Python floats / SQL floats) are modelled as exact rationals
`ℚ`; SQL `NULL` / pandas `NaN` is modelled as `Option.none` with the
propagation rules the code actually exercises (`pd.notna` guards, `NaN`
failing both `< 0` and `> 0` comparisons, `NULLIF`, null-propagating sums).
All dates in the modelled fragments are compared only for equality, so they
are plain strings; datetime cursors of the chunk loop are integer day
offsets (every cursor in the source shares the same time of day, so the
whole-day arithmetic of `timedelta` is exactly integer arithmetic).
-/

namespace SectorFlux

/-! ## Data model: rows of Fact_DailyPrice as read by generate_net_flux_matrix

`SELECT Date, Symbol, [Close] AS Price, Market_Cap FROM Fact_DailyPrice ...`
Price and Market_Cap are nullable columns. -/

structure DbRow where
  date : String
  symbol : String
  price : Option ℚ
  marketCap : Option ℚ
deriving DecidableEq

/-- Input of one `generate_net_flux_matrix(past_date, now_date, target_assets,
hedge_assets)` call, together with the contents of the fact table. -/
structure FluxInput where
  db : List DbRow
  pastDate : String
  nowDate : String
  targetAssets : List String
  hedgeAssets : List String

namespace FluxInput

/-- The `WHERE Date IN ('{past_date}', '{now_date}') AND Symbol IN (...)`
query over the fact table (`all_tickers = set(target_assets + hedge_assets)`;
the set only affects membership). -/
def rows (i : FluxInput) : List DbRow :=
  i.db.filter (fun r =>
    (r.date = i.pastDate ∨ r.date = i.nowDate) ∧
      r.symbol ∈ i.targetAssets ++ i.hedgeAssets)

/-- `available_past = df[df['Date'] == past_date]['Symbol'].tolist()` -/
def availablePast (i : FluxInput) : List String :=
  (i.rows.filter (fun r => r.date = i.pastDate)).map (fun r => r.symbol)

/-- `available_now = df[df['Date'] == now_date]['Symbol'].tolist()` -/
def availableNow (i : FluxInput) : List String :=
  (i.rows.filter (fun r => r.date = i.nowDate)).map (fun r => r.symbol)

/-- `alive_tickers = list(set(available_past).intersection(set(available_now)))`
(a set: only membership matters downstream; `dedup` mirrors `set`). -/
def aliveTickers (i : FluxInput) : List String :=
  i.availablePast.dedup.filter (fun s => s ∈ i.availableNow)

/-- `active_targets = [s for s in target_assets if s in alive_tickers]` -/
def activeTargets (i : FluxInput) : List String :=
  i.targetAssets.filter (fun s => s ∈ i.aliveTickers)

/-- `active_hedges = [s for s in hedge_assets if s in alive_tickers]` -/
def activeHedges (i : FluxInput) : List String :=
  i.hedgeAssets.filter (fun s => s ∈ i.aliveTickers)

/-- `df_past.loc[sym]` / `df_now.loc[sym]` — the row of the given date for a
symbol (unique in the fact table, whose key is (Date, Symbol)). -/
def rowFor (i : FluxInput) (d s : String) : Option DbRow :=
  (i.rows.filter (fun r => r.date = d)).find? (fun r => r.symbol = s)

end FluxInput

/-- Per-ticker net flow, step 4 of `generate_net_flux_matrix`:

```
if pd.notna(mc_past) and pd.notna(price_past) and price_past != 0:
    r_asset = (price_now / price_past) - 1
    f_net = mc_now - (mc_past * (1 + r_asset))
    f_net_dict[sym] = f_net
else:
    f_net_dict[sym] = 0
```

`none` models a float `NaN` (it arises when the guard passes but the
now-side price or market cap is missing). -/
def fNet (past now : DbRow) : Option ℚ :=
  match past.marketCap, past.price with
  | some mcPast, some pricePast =>
    if pricePast ≠ 0 then
      match now.marketCap, now.price with
      | some mcNow, some priceNow =>
        some (mcNow - (mcPast * (1 + ((priceNow / pricePast) - 1))))
      | _, _ => none
    else some 0
  | _, _ => some 0

namespace FluxInput

/-- `f_net_dict[sym]` for `sym` in `alive_tickers` (both rows exist for an
alive ticker; the default branch is unreachable there). -/
def fNetOf (i : FluxInput) (s : String) : Option ℚ :=
  match i.rowFor i.pastDate s, i.rowFor i.nowDate s with
  | some rp, some rn => fNet rp rn
  | _, _ => some 0

/-- `f_net_dict.get(s, 0)` — the dictionary holds exactly the alive tickers. -/
def fNetGet (i : FluxInput) (s : String) : Option ℚ :=
  if s ∈ i.aliveTickers then i.fNetOf s else some 0

end FluxInput

/-- Python `sum` over possibly-`NaN` floats: starts at `0`, `NaN` propagates. -/
def osum (l : List (Option ℚ)) : Option ℚ :=
  l.foldl (fun acc v =>
    match acc, v with
    | some a, some b => some (a + b)
    | _, _ => none) (some 0)

namespace FluxInput

/-- `nodes_f_net`: individual active targets plus the aggregated `HEDGE`
node, `nodes_f_net['HEDGE'] = sum(f_net_dict.get(h, 0) for h in active_hedges)`.
(The node set is `activeTargets ++ ["HEDGE"]`; valid inputs keep `"HEDGE"`
out of the target universe, so the function view coincides with the dict.) -/
def nodesFNet (i : FluxInput) (s : String) : Option ℚ :=
  if s = "HEDGE" then osum (i.activeHedges.map i.fNetGet)
  else i.fNetGet s

/-- `matrix_nodes = active_targets + ['HEDGE']` — also the insertion order of
the `nodes_f_net` dict. -/
def matrixNodes (i : FluxInput) : List String :=
  i.activeTargets ++ ["HEDGE"]

/-- The outflow magnitude a node contributes to the `outflows` dict
(`{k: abs(v) for k, v in nodes_f_net.items() if v < 0}`); `NaN` fails `v < 0`. -/
def outVal (i : FluxInput) (s : String) : Option ℚ :=
  match i.nodesFNet s with
  | some v => if v < 0 then some |v| else none
  | none => none

/-- The inflow a node contributes to the `inflows` dict
(`{k: v for k, v in nodes_f_net.items() if v > 0}`); `NaN` fails `v > 0`. -/
def inVal (i : FluxInput) (s : String) : Option ℚ :=
  match i.nodesFNet s with
  | some v => if v > 0 then some v else none
  | none => none

/-- The `outflows` dict, in `nodes_f_net` iteration order. -/
def outflows0 (i : FluxInput) : List (String × ℚ) :=
  i.matrixNodes.filterMap (fun k => (i.outVal k).map (fun v => (k, v)))

/-- The `inflows` dict, in `nodes_f_net` iteration order. -/
def inflows0 (i : FluxInput) : List (String × ℚ) :=
  i.matrixNodes.filterMap (fun k => (i.inVal k).map (fun v => (k, v)))

/-- `total_out = sum(outflows.values())` (before the conservation step). -/
def totalOut0 (i : FluxInput) : ℚ := (i.outflows0.map Prod.snd).sum

/-- `total_in = sum(inflows.values())` (before the conservation step). -/
def totalIn0 (i : FluxInput) : ℚ := (i.inflows0.map Prod.snd).sum

end FluxInput

/-- `dct[k] = dct.get(k, 0) + d` on a Python dict viewed as an ordered
association list: update in place when the key exists, append otherwise. -/
def dictAddAt (l : List (String × ℚ)) (k : String) (d : ℚ) : List (String × ℚ) :=
  if l.any (fun p => p.1 = k) then
    l.map (fun p => if p.1 = k then (p.1, p.2 + d) else p)
  else l ++ [(k, d)]

namespace FluxInput

/-- Step 6, conservation correction, outflow side:
`elif total_in > total_out: outflows['HEDGE'] = outflows.get('HEDGE', 0) + diff`. -/
def outflowsF (i : FluxInput) : List (String × ℚ) :=
  if i.totalIn0 > i.totalOut0 then dictAddAt i.outflows0 "HEDGE" (i.totalIn0 - i.totalOut0)
  else i.outflows0

/-- Step 6, conservation correction, inflow side:
`if total_out > total_in: inflows['HEDGE'] = inflows.get('HEDGE', 0) + diff`. -/
def inflowsF (i : FluxInput) : List (String × ℚ) :=
  if i.totalOut0 > i.totalIn0 then dictAddAt i.inflows0 "HEDGE" (i.totalOut0 - i.totalIn0)
  else i.inflows0

/-- `total_out` after the correction (the code re-sums the mutated side). -/
def totalOutF (i : FluxInput) : ℚ := (i.outflowsF.map Prod.snd).sum

/-- `total_in` after the correction. -/
def totalInF (i : FluxInput) : ℚ := (i.inflowsF.map Prod.snd).sum

/-- Step 7: the matrix starts as all zeros and, when `total_in > 0`, cell
`(source, target)` is set to `out_val * (in_val / total_in)` for every
`source` in `outflows` and `target` in `inflows` (dict keys are unique and
lie inside `matrix_nodes`, so `.loc` writes exactly these cells). -/
def fluxEntry (i : FluxInput) (s t : String) : ℚ :=
  if i.totalInF > 0 then
    match i.outflowsF.lookup s, i.inflowsF.lookup t with
    | some o, some iv => o * (iv / i.totalInF)
    | _, _ => 0
  else 0

end FluxInput

/-- The returned `flux_matrix` DataFrame: its index/column labels and its
cell values. -/
structure FluxMatrix where
  nodes : List String
  entry : String → String → ℚ

/-- `generate_net_flux_matrix`: `None` exactly when the two-date query comes
back empty (`if df.empty: return None`), otherwise the matrix of step 7. -/
def generate_net_flux_matrix (i : FluxInput) : Option FluxMatrix :=
  if i.rows.isEmpty then none
  else some { nodes := i.matrixNodes, entry := i.fluxEntry }

/-- Row sum of a flux matrix (over its own labels). -/
def rowSum (M : FluxMatrix) (s : String) : ℚ :=
  (M.nodes.map (fun t => M.entry s t)).sum

/-- Column sum of a flux matrix (over its own labels). -/
def colSum (M : FluxMatrix) (t : String) : ℚ :=
  (M.nodes.map (fun s => M.entry s t)).sum

/-- Total mass of a flux matrix. -/
def totalMass (M : FluxMatrix) : ℚ :=
  (M.nodes.map (fun s => rowSum M s)).sum

end SectorFlux

namespace SectorFlux

/-! ## Association-list lemmas used by the conservation proofs -/

theorem map_fst_filterMap_pairs {α β : Type} (f : α → Option β) (l : List α) :
    (l.filterMap (fun a => (f a).map (fun v => (a, v)))).map Prod.fst
      = l.filter (fun a => (f a).isSome) := by
  induction l with
  | nil => rfl
  | cons a l ih =>
    cases h : f a <;>
      simp [List.filterMap_cons, h, List.filter_cons, ih]

theorem mem_filterMap_pairs {α β : Type} {f : α → Option β} {l : List α}
    {k : α} {v : β}
    (h : (k, v) ∈ l.filterMap (fun a => (f a).map (fun w => (a, w)))) :
    k ∈ l ∧ f k = some v := by
  rcases List.mem_filterMap.mp h with ⟨a, ha, hfa⟩
  rcases Option.map_eq_some'.mp hfa with ⟨w, hw, heq⟩
  cases heq
  exact ⟨ha, hw⟩

theorem lookup_mem {l : List (String × ℚ)} {k : String} {v : ℚ}
    (h : l.lookup k = some v) : (k, v) ∈ l := by
  induction l with
  | nil => simp [List.lookup] at h
  | cons p l ih =>
    rcases p with ⟨k', v'⟩
    rw [List.lookup] at h
    by_cases hk : k = k'
    · subst hk
      simp at h
      simp [h]
    · have hbeq : (k == k') = false := by
        simp [hk]
      rw [hbeq] at h
      exact List.mem_cons_of_mem _ (ih h)

theorem lookup_eq_none_of_not_mem_fst {l : List (String × ℚ)} {k : String}
    (h : k ∉ l.map Prod.fst) : l.lookup k = none := by
  induction l with
  | nil => rfl
  | cons p l ih =>
    rcases p with ⟨k', v'⟩
    rw [List.map_cons] at h
    have h1 : k ≠ k' := fun he => h (he ▸ List.mem_cons_self _ _)
    have h2 : k ∉ l.map Prod.fst := fun hm => h (List.mem_cons_of_mem _ hm)
    rw [List.lookup]
    have hbeq : (k == k') = false := by simp [h1]
    rw [hbeq]
    exact ih h2

theorem sum_map_add_split (f g : String → ℚ) (l : List String) :
    (l.map (fun x => f x + g x)).sum = (l.map f).sum + (l.map g).sum := by
  induction l with
  | nil => simp
  | cons a l ih => simp [ih]; ring

theorem sum_map_ite_single (nodes : List String) (k : String) (v : ℚ)
    (hn : nodes.Nodup) (hk : k ∈ nodes) :
    (nodes.map (fun x => if x = k then v else 0)).sum = v := by
  induction nodes with
  | nil => cases hk
  | cons a nodes ih =>
    by_cases hak : a = k
    · subst hak
      have hnot : a ∉ nodes := (List.nodup_cons.mp hn).1
      have hz : (nodes.map (fun x => if x = a then v else 0)).sum = 0 := by
        refine List.sum_eq_zero ?_
        intro x hx
        rcases List.mem_map.mp hx with ⟨y, hy, rfl⟩
        have hya : y ≠ a := fun he => hnot (he ▸ hy)
        simp [hya]
      simp [hz]
    · have hk' : k ∈ nodes := by
        rcases List.mem_cons.mp hk with h | h
        · exact absurd h.symm hak
        · exact h
      simp [hak, ih (List.nodup_cons.mp hn).2 hk']

theorem sum_lookup_getD (l : List (String × ℚ)) (nodes : List String)
    (hk : (l.map Prod.fst).Nodup) (hsub : ∀ p ∈ l, p.1 ∈ nodes)
    (hn : nodes.Nodup) :
    (nodes.map (fun x => (l.lookup x).getD 0)).sum = (l.map Prod.snd).sum := by
  induction l with
  | nil =>
    simp only [List.lookup_nil, Option.getD_none, List.map_nil, List.sum_nil]
    refine List.sum_eq_zero ?_
    intro x hx
    rcases List.mem_map.mp hx with ⟨y, -, heq⟩
    exact heq.symm
  | cons p l ih =>
    rcases p with ⟨k₀, v₀⟩
    have hk0nodes : k₀ ∈ nodes := hsub _ (List.mem_cons_self _ _)
    rw [List.map_cons] at hk
    have hk0rest : k₀ ∉ l.map Prod.fst := (List.nodup_cons.mp hk).1
    have hkrest : (l.map Prod.fst).Nodup := (List.nodup_cons.mp hk).2
    have hrest : l.lookup k₀ = none := lookup_eq_none_of_not_mem_fst hk0rest
    have hstep : ∀ x, ((((k₀, v₀) :: l).lookup x).getD 0)
        = (if x = k₀ then v₀ else 0) + (l.lookup x).getD 0 := by
      intro x
      rw [List.lookup]
      by_cases hx : x = k₀
      · subst hx
        simp [hrest]
      · have hbeq : (x == k₀) = false := by simp [hx]
        rw [hbeq]
        simp [hx]
    calc (nodes.map (fun x => (((k₀, v₀) :: l).lookup x).getD 0)).sum
        = (nodes.map (fun x => (if x = k₀ then v₀ else 0) + (l.lookup x).getD 0)).sum := by
          rw [List.map_congr_left (fun x _ => hstep x)]
      _ = v₀ + (l.map Prod.snd).sum := by
          rw [sum_map_add_split, sum_map_ite_single nodes k₀ v₀ hn hk0nodes,
            ih hkrest (fun q hq => hsub q (List.mem_cons_of_mem _ hq))]
      _ = (((k₀, v₀) :: l).map Prod.snd).sum := by simp

end SectorFlux

namespace SectorFlux

/-! ## Lemmas about the dict update `dct[k] = dct.get(k, 0) + d` -/

theorem map_addAt_eq_self_of_not_mem {l : List (String × ℚ)} {k : String} {d : ℚ}
    (h : k ∉ l.map Prod.fst) :
    l.map (fun p => if p.1 = k then (p.1, p.2 + d) else p) = l := by
  induction l with
  | nil => rfl
  | cons p l ih =>
    rw [List.map_cons] at h
    have h1 : p.1 ≠ k := fun he => h (he ▸ List.mem_cons_self _ _)
    have h2 : k ∉ l.map Prod.fst := fun hm => h (List.mem_cons_of_mem _ hm)
    simp [h1, ih h2]

theorem dictAddAt_fst_of_mem {l : List (String × ℚ)} {k : String} {d : ℚ}
    (h : k ∈ l.map Prod.fst) :
    (dictAddAt l k d).map Prod.fst = l.map Prod.fst := by
  have hany : l.any (fun p => decide (p.1 = k)) = true := by
    rcases List.mem_map.mp h with ⟨p, hp, hpk⟩
    exact List.any_eq_true.mpr ⟨p, hp, by simp [hpk]⟩
  rw [dictAddAt, if_pos hany, List.map_map]
  refine List.map_congr_left ?_
  intro p _
  by_cases hp : p.1 = k <;> simp [hp]

theorem dictAddAt_fst_of_not_mem {l : List (String × ℚ)} {k : String} {d : ℚ}
    (h : k ∉ l.map Prod.fst) :
    (dictAddAt l k d).map Prod.fst = l.map Prod.fst ++ [k] := by
  have hany : ¬ (l.any (fun p => decide (p.1 = k)) = true) := by
    intro hc
    rcases List.any_eq_true.mp hc with ⟨p, hp, hpk⟩
    exact h (List.mem_map.mpr ⟨p, hp, by simpa using hpk⟩)
  rw [dictAddAt, if_neg hany, List.map_append]
  rfl

theorem dictAddAt_snd_sum {l : List (String × ℚ)} {k : String} {d : ℚ}
    (hk : (l.map Prod.fst).Nodup) :
    ((dictAddAt l k d).map Prod.snd).sum = (l.map Prod.snd).sum + d := by
  by_cases hmem : k ∈ l.map Prod.fst
  · have hany : l.any (fun p => decide (p.1 = k)) = true := by
      rcases List.mem_map.mp hmem with ⟨p, hp, hpk⟩
      exact List.any_eq_true.mpr ⟨p, hp, by simp [hpk]⟩
    rw [dictAddAt, if_pos hany]
    clear hany
    induction l with
    | nil => cases hmem
    | cons p l ih =>
      rw [List.map_cons] at hk
      have hnd : (l.map Prod.fst).Nodup := (List.nodup_cons.mp hk).2
      by_cases hpk : p.1 = k
      · have hnotl : k ∉ l.map Prod.fst := hpk ▸ (List.nodup_cons.mp hk).1
        rw [List.map_cons, if_pos hpk, map_addAt_eq_self_of_not_mem hnotl]
        simp
        ring
      · have hmem' : k ∈ l.map Prod.fst := by
          rcases List.mem_cons.mp (List.map_cons _ _ _ ▸ hmem) with h | h
          · exact absurd h.symm hpk
          · exact h
        rw [List.map_cons, if_neg hpk]
        simp only [List.map_cons, List.sum_cons]
        rw [ih hnd hmem']
        ring
  · have hany : ¬ (l.any (fun p => decide (p.1 = k)) = true) := by
      intro hc
      rcases List.any_eq_true.mp hc with ⟨p, hp, hpk⟩
      exact hmem (List.mem_map.mpr ⟨p, hp, by simpa using hpk⟩)
    rw [dictAddAt, if_neg hany]
    simp

theorem dictAddAt_pos {l : List (String × ℚ)} {k : String} {d : ℚ}
    (hpos : ∀ p ∈ l, 0 < p.2) (hd : 0 < d) :
    ∀ p ∈ dictAddAt l k d, 0 < p.2 := by
  intro p hp
  rw [dictAddAt] at hp
  by_cases hany : l.any (fun q => decide (q.1 = k)) = true
  · rw [if_pos hany] at hp
    rcases List.mem_map.mp hp with ⟨q, hq, hqe⟩
    by_cases hqk : q.1 = k
    · rw [if_pos hqk] at hqe
      cases hqe
      exact add_pos (hpos q hq) hd
    · rw [if_neg hqk] at hqe
      exact hqe ▸ hpos q hq
  · rw [if_neg hany] at hp
    rcases List.mem_append.mp hp with h | h
    · exact hpos p h
    · rcases List.mem_singleton.mp h with rfl
      exact hd

end SectorFlux

namespace SectorFlux

namespace FluxInput

/-! ## Structural facts about the outflow/inflow dicts -/

theorem matrixNodes_nodup (i : FluxInput) (ht : i.targetAssets.Nodup)
    (hh : "HEDGE" ∉ i.targetAssets) : i.matrixNodes.Nodup := by
  rw [matrixNodes]
  refine List.Nodup.append (ht.filter _) (List.nodup_singleton _) ?_
  intro x hx hx'
  rcases List.mem_singleton.mp hx' with rfl
  exact hh (List.mem_of_mem_filter hx)

theorem outflows0_fst (i : FluxInput) :
    i.outflows0.map Prod.fst = i.matrixNodes.filter (fun k => (i.outVal k).isSome) :=
  map_fst_filterMap_pairs _ _

theorem inflows0_fst (i : FluxInput) :
    i.inflows0.map Prod.fst = i.matrixNodes.filter (fun k => (i.inVal k).isSome) :=
  map_fst_filterMap_pairs _ _

theorem outflows0_fst_nodup (i : FluxInput) (hn : i.matrixNodes.Nodup) :
    (i.outflows0.map Prod.fst).Nodup := by
  rw [outflows0_fst]; exact hn.filter _

theorem inflows0_fst_nodup (i : FluxInput) (hn : i.matrixNodes.Nodup) :
    (i.inflows0.map Prod.fst).Nodup := by
  rw [inflows0_fst]; exact hn.filter _

theorem outflows0_fst_mem (i : FluxInput) :
    ∀ p ∈ i.outflows0, p.1 ∈ i.matrixNodes := by
  rintro ⟨k, v⟩ hp
  exact (mem_filterMap_pairs hp).1

theorem inflows0_fst_mem (i : FluxInput) :
    ∀ p ∈ i.inflows0, p.1 ∈ i.matrixNodes := by
  rintro ⟨k, v⟩ hp
  exact (mem_filterMap_pairs hp).1

theorem outflows0_pos (i : FluxInput) : ∀ p ∈ i.outflows0, 0 < p.2 := by
  rintro ⟨k, v⟩ hp
  have hv := (mem_filterMap_pairs hp).2
  rcases hnf : i.nodesFNet k with - | w <;> simp [outVal, hnf] at hv
  rcases hv with ⟨hw, rfl⟩
  simpa using abs_pos.mpr (ne_of_lt hw)

theorem inflows0_pos (i : FluxInput) : ∀ p ∈ i.inflows0, 0 < p.2 := by
  rintro ⟨k, v⟩ hp
  have hv := (mem_filterMap_pairs hp).2
  rcases hnf : i.nodesFNet k with - | w <;> simp [inVal, hnf] at hv
  rcases hv with ⟨hw, rfl⟩
  exact hw

theorem hedge_mem_matrixNodes (i : FluxInput) : "HEDGE" ∈ i.matrixNodes :=
  List.mem_append.mpr (Or.inr (List.mem_singleton.mpr rfl))

/-! ## The corrected dicts -/

theorem outflowsF_fst_nodup (i : FluxInput) (hn : i.matrixNodes.Nodup) :
    (i.outflowsF.map Prod.fst).Nodup := by
  rw [outflowsF]
  split
  · by_cases hmem : "HEDGE" ∈ i.outflows0.map Prod.fst
    · rw [dictAddAt_fst_of_mem hmem]; exact i.outflows0_fst_nodup hn
    · rw [dictAddAt_fst_of_not_mem hmem]
      refine List.Nodup.append (i.outflows0_fst_nodup hn) (List.nodup_singleton _) ?_
      intro x hx hx'
      rcases List.mem_singleton.mp hx' with rfl
      exact hmem hx
  · exact i.outflows0_fst_nodup hn

theorem inflowsF_fst_nodup (i : FluxInput) (hn : i.matrixNodes.Nodup) :
    (i.inflowsF.map Prod.fst).Nodup := by
  rw [inflowsF]
  split
  · by_cases hmem : "HEDGE" ∈ i.inflows0.map Prod.fst
    · rw [dictAddAt_fst_of_mem hmem]; exact i.inflows0_fst_nodup hn
    · rw [dictAddAt_fst_of_not_mem hmem]
      refine List.Nodup.append (i.inflows0_fst_nodup hn) (List.nodup_singleton _) ?_
      intro x hx hx'
      rcases List.mem_singleton.mp hx' with rfl
      exact hmem hx
  · exact i.inflows0_fst_nodup hn

theorem outflowsF_fst_mem (i : FluxInput) :
    ∀ p ∈ i.outflowsF, p.1 ∈ i.matrixNodes := by
  intro p hp
  rw [outflowsF] at hp
  revert hp
  split
  · intro hp
    have hfst : p.1 ∈ (dictAddAt i.outflows0 "HEDGE" _).map Prod.fst :=
      List.mem_map.mpr ⟨p, hp, rfl⟩
    by_cases hmem : "HEDGE" ∈ i.outflows0.map Prod.fst
    · rw [dictAddAt_fst_of_mem hmem] at hfst
      rcases List.mem_map.mp hfst with ⟨q, hq, hqe⟩
      exact hqe ▸ i.outflows0_fst_mem q hq
    · rw [dictAddAt_fst_of_not_mem hmem] at hfst
      rcases List.mem_append.mp hfst with h | h
      · rcases List.mem_map.mp h with ⟨q, hq, hqe⟩
        exact hqe ▸ i.outflows0_fst_mem q hq
      · rcases List.mem_singleton.mp h with he
        exact he ▸ i.hedge_mem_matrixNodes
  · intro hp
    exact i.outflows0_fst_mem p hp

theorem inflowsF_fst_mem (i : FluxInput) :
    ∀ p ∈ i.inflowsF, p.1 ∈ i.matrixNodes := by
  intro p hp
  rw [inflowsF] at hp
  revert hp
  split
  · intro hp
    have hfst : p.1 ∈ (dictAddAt i.inflows0 "HEDGE" _).map Prod.fst :=
      List.mem_map.mpr ⟨p, hp, rfl⟩
    by_cases hmem : "HEDGE" ∈ i.inflows0.map Prod.fst
    · rw [dictAddAt_fst_of_mem hmem] at hfst
      rcases List.mem_map.mp hfst with ⟨q, hq, hqe⟩
      exact hqe ▸ i.inflows0_fst_mem q hq
    · rw [dictAddAt_fst_of_not_mem hmem] at hfst
      rcases List.mem_append.mp hfst with h | h
      · rcases List.mem_map.mp h with ⟨q, hq, hqe⟩
        exact hqe ▸ i.inflows0_fst_mem q hq
      · rcases List.mem_singleton.mp h with he
        exact he ▸ i.hedge_mem_matrixNodes
  · intro hp
    exact i.inflows0_fst_mem p hp

theorem outflowsF_pos (i : FluxInput) : ∀ p ∈ i.outflowsF, 0 < p.2 := by
  rw [outflowsF]
  split
  · exact dictAddAt_pos i.outflows0_pos (by linarith)
  · exact i.outflows0_pos

theorem inflowsF_pos (i : FluxInput) : ∀ p ∈ i.inflowsF, 0 < p.2 := by
  rw [inflowsF]
  split
  · exact dictAddAt_pos i.inflows0_pos (by linarith)
  · exact i.inflows0_pos

/-- After the conservation correction both totals agree (the re-summed side
was raised by exactly the difference). -/
theorem totalOutF_eq_totalInF (i : FluxInput) (hn : i.matrixNodes.Nodup) :
    i.totalOutF = i.totalInF := by
  rw [totalOutF, totalInF, outflowsF, inflowsF]
  rcases lt_trichotomy i.totalOut0 i.totalIn0 with h | h | h
  · rw [if_pos h, if_neg (by linarith), dictAddAt_snd_sum (i.outflows0_fst_nodup hn)]
    show i.totalOut0 + (i.totalIn0 - i.totalOut0) = i.totalIn0
    ring
  · rw [if_neg (by linarith), if_neg (by linarith)]
    exact h
  · rw [if_neg (by linarith), if_pos h, dictAddAt_snd_sum (i.inflows0_fst_nodup hn)]
    show i.totalOut0 = i.totalIn0 + (i.totalOut0 - i.totalIn0)
    ring

theorem totalInF_nonneg (i : FluxInput) : 0 ≤ i.totalInF := by
  rw [totalInF]
  refine List.sum_nonneg ?_
  intro x hx
  rcases List.mem_map.mp hx with ⟨p, hp, rfl⟩
  exact le_of_lt (i.inflowsF_pos p hp)

theorem nil_of_pos_sum_nonpos {l : List (String × ℚ)}
    (hpos : ∀ p ∈ l, 0 < p.2) (hs : (l.map Prod.snd).sum ≤ 0) : l = [] := by
  cases l with
  | nil => rfl
  | cons p l =>
    exfalso
    have h1 : 0 < p.2 := hpos p (List.mem_cons_self _ _)
    have h2 : 0 ≤ (l.map Prod.snd).sum := by
      refine List.sum_nonneg ?_
      intro x hx
      rcases List.mem_map.mp hx with ⟨q, hq, rfl⟩
      exact le_of_lt (hpos q (List.mem_cons_of_mem _ hq))
    simp only [List.map_cons, List.sum_cons] at hs
    linarith

/-- If the corrected inflow total is not positive then both dicts are empty
(the matrix-filling loop runs over nothing). -/
theorem dicts_nil_of_totalInF_nonpos (i : FluxInput) (hn : i.matrixNodes.Nodup)
    (h : ¬ i.totalInF > 0) :
    i.outflowsF = [] ∧ i.inflowsF = [] := by
  have hin : i.totalInF ≤ 0 := not_lt.mp h
  have hout : i.totalOutF ≤ 0 := (i.totalOutF_eq_totalInF hn) ▸ hin
  exact ⟨nil_of_pos_sum_nonpos i.outflowsF_pos hout,
    nil_of_pos_sum_nonpos i.inflowsF_pos hin⟩

/-- Normal form of a matrix cell when the allocation loop runs. -/
theorem fluxEntry_eq (i : FluxInput) (h : i.totalInF > 0) (s t : String) :
    i.fluxEntry s t
      = ((i.outflowsF.lookup s).getD 0) * (((i.inflowsF.lookup t).getD 0) / i.totalInF) := by
  rw [fluxEntry, if_pos h]
  rcases ho : i.outflowsF.lookup s with - | o <;>
    rcases hi : i.inflowsF.lookup t with - | iv <;> simp

end FluxInput

end SectorFlux

namespace SectorFlux

namespace FluxInput

theorem outflowsF_lookup_getD_nonneg (i : FluxInput) (s : String) :
    0 ≤ (i.outflowsF.lookup s).getD 0 := by
  rcases h : i.outflowsF.lookup s with - | o
  · simp
  · simpa using le_of_lt (i.outflowsF_pos _ (lookup_mem h))

theorem inflowsF_lookup_getD_nonneg (i : FluxInput) (t : String) :
    0 ≤ (i.inflowsF.lookup t).getD 0 := by
  rcases h : i.inflowsF.lookup t with - | iv
  · simp
  · simpa using le_of_lt (i.inflowsF_pos _ (lookup_mem h))

theorem fluxEntry_nonneg (i : FluxInput) (s t : String) : 0 ≤ i.fluxEntry s t := by
  by_cases hT : i.totalInF > 0
  · rw [i.fluxEntry_eq hT s t]
    exact mul_nonneg (i.outflowsF_lookup_getD_nonneg s)
      (div_nonneg (i.inflowsF_lookup_getD_nonneg t) (le_of_lt hT))
  · rw [fluxEntry, if_neg hT]

/-- Each matrix row sums to the node's (corrected) outflow magnitude. -/
theorem rowSum_fluxEntry (i : FluxInput) (hn : i.matrixNodes.Nodup) (s : String) :
    (i.matrixNodes.map (fun t => i.fluxEntry s t)).sum
      = (i.outflowsF.lookup s).getD 0 := by
  by_cases h : i.totalInF > 0
  · have hT : i.totalInF ≠ 0 := ne_of_gt h
    rw [List.map_congr_left (fun t _ => i.fluxEntry_eq h s t)]
    rw [List.map_congr_left (fun t _ => by
      rw [div_eq_mul_inv] :
        ∀ t ∈ i.matrixNodes,
          ((i.outflowsF.lookup s).getD 0) * (((i.inflowsF.lookup t).getD 0) / i.totalInF)
            = ((i.outflowsF.lookup s).getD 0) * (((i.inflowsF.lookup t).getD 0) * i.totalInF⁻¹))]
    rw [List.sum_map_mul_left, List.sum_map_mul_right,
      sum_lookup_getD i.inflowsF i.matrixNodes (i.inflowsF_fst_nodup hn)
        i.inflowsF_fst_mem hn]
    rw [show (i.inflowsF.map Prod.snd).sum = i.totalInF from rfl,
      mul_inv_cancel₀ hT, mul_one]
  · rcases i.dicts_nil_of_totalInF_nonpos hn h with ⟨ho, -⟩
    have hz : ∀ t ∈ i.matrixNodes, i.fluxEntry s t = 0 := by
      intro t _
      rw [fluxEntry, if_neg h]
    rw [List.map_congr_left hz, ho, List.lookup_nil]
    refine List.sum_eq_zero ?_
    intro x hx
    rcases List.mem_map.mp hx with ⟨y, -, heq⟩
    exact heq.symm

/-- Each matrix column sums to the node's (corrected) inflow. -/
theorem colSum_fluxEntry (i : FluxInput) (hn : i.matrixNodes.Nodup) (t : String) :
    (i.matrixNodes.map (fun s => i.fluxEntry s t)).sum
      = (i.inflowsF.lookup t).getD 0 := by
  by_cases h : i.totalInF > 0
  · have hT : i.totalInF ≠ 0 := ne_of_gt h
    rw [List.map_congr_left (fun s _ => i.fluxEntry_eq h s t)]
    rw [List.sum_map_mul_right,
      sum_lookup_getD i.outflowsF i.matrixNodes (i.outflowsF_fst_nodup hn)
        i.outflowsF_fst_mem hn]
    rw [show (i.outflowsF.map Prod.snd).sum = i.totalOutF from rfl,
      i.totalOutF_eq_totalInF hn, div_eq_mul_inv, ← mul_assoc,
      mul_comm i.totalInF, mul_assoc, mul_inv_cancel₀ hT, mul_one]
  · rcases i.dicts_nil_of_totalInF_nonpos hn h with ⟨-, hi⟩
    have hz : ∀ s ∈ i.matrixNodes, i.fluxEntry s t = 0 := by
      intro s _
      rw [fluxEntry, if_neg h]
    rw [List.map_congr_left hz, hi, List.lookup_nil]
    refine List.sum_eq_zero ?_
    intro x hx
    rcases List.mem_map.mp hx with ⟨y, -, heq⟩
    exact heq.symm

end FluxInput

/-- **C1.** For every two-date flux computation (on a sane universe: no
duplicate targets, no real ticker named `HEDGE`) that returns a matrix and
has at least one surviving ticker with negative net flow and at least one
with positive net flow, the matrix of `generate_net_flux_matrix` has all
entries ≥ 0, each row sums to that node's outflow magnitude (the value of
the corrected `outflows` dict, 0 for a non-outflow node), each column sums
to that node's inflow (the corrected `inflows` dict), and the total matrix
mass equals total outflow equals total inflow. -/
theorem flux_matrix_conservation
    (i : FluxInput) (ht : i.targetAssets.Nodup) (hh : "HEDGE" ∉ i.targetAssets)
    (M : FluxMatrix) (hM : generate_net_flux_matrix i = some M)
    (_hneg : ∃ s ∈ i.aliveTickers, ∃ v, i.fNetOf s = some v ∧ v < 0)
    (_hpos : ∃ s ∈ i.aliveTickers, ∃ v, i.fNetOf s = some v ∧ 0 < v) :
    (∀ s ∈ M.nodes, ∀ t ∈ M.nodes, 0 ≤ M.entry s t)
    ∧ (∀ s, rowSum M s = (i.outflowsF.lookup s).getD 0)
    ∧ (∀ t, colSum M t = (i.inflowsF.lookup t).getD 0)
    ∧ totalMass M = i.totalOutF ∧ totalMass M = i.totalInF := by
  have hn := i.matrixNodes_nodup ht hh
  have hMv : M = ⟨i.matrixNodes, i.fluxEntry⟩ := by
    rw [generate_net_flux_matrix] at hM
    split at hM
    · cases hM
    · exact (Option.some_inj.mp hM).symm
  subst hMv
  refine ⟨?_, ?_, ?_, ?_, ?_⟩
  · intro s _ t _
    exact i.fluxEntry_nonneg s t
  · intro s
    exact i.rowSum_fluxEntry hn s
  · intro t
    exact i.colSum_fluxEntry hn t
  · show (i.matrixNodes.map
        (fun s => (i.matrixNodes.map (fun t => i.fluxEntry s t)).sum)).sum = i.totalOutF
    rw [List.map_congr_left (fun s _ => i.rowSum_fluxEntry hn s)]
    exact sum_lookup_getD i.outflowsF i.matrixNodes (i.outflowsF_fst_nodup hn)
      i.outflowsF_fst_mem hn
  · show (i.matrixNodes.map
        (fun s => (i.matrixNodes.map (fun t => i.fluxEntry s t)).sum)).sum = i.totalInF
    rw [List.map_congr_left (fun s _ => i.rowSum_fluxEntry hn s)]
    rw [sum_lookup_getD i.outflowsF i.matrixNodes (i.outflowsF_fst_nodup hn)
      i.outflowsF_fst_mem hn]
    exact i.totalOutF_eq_totalInF hn

end SectorFlux


namespace SectorFlux

/-! ## The concrete scenario of the specification (section 8)

target = {AAA}, hedge = {HEDGE-ONLY};
past: AAA price 100 / cap 1000, HEDGE-ONLY price 50 / cap 500;
now:  AAA price 110 / cap 1200, HEDGE-ONLY price 49 / cap 480. -/

def scenarioDb : List DbRow :=
  [ { date := "2024-01-02", symbol := "AAA", price := some 100, marketCap := some 1000 },
    { date := "2024-01-02", symbol := "HEDGE-ONLY", price := some 50, marketCap := some 500 },
    { date := "2024-02-01", symbol := "AAA", price := some 110, marketCap := some 1200 },
    { date := "2024-02-01", symbol := "HEDGE-ONLY", price := some 49, marketCap := some 480 } ]

def scenarioInput : FluxInput :=
  { db := scenarioDb, pastDate := "2024-01-02", nowDate := "2024-02-01",
    targetAssets := ["AAA"], hedgeAssets := ["HEDGE-ONLY"] }

/-- `f_net(AAA) = 1200 − 1000·(110/100) = +100`. -/
theorem scenario_fnet_aaa : scenarioInput.fNetOf "AAA" = some 100 := by
  show some (1200 - (1000 * (1 + (((110 : ℚ) / 100) - 1)))) = some 100
  norm_num

/-- `f_net(HEDGE-ONLY) = 480 − 500·(49/50) = −10`. -/
theorem scenario_fnet_hedge : scenarioInput.fNetOf "HEDGE-ONLY" = some (-10) := by
  show some (480 - (500 * (1 + (((49 : ℚ) / 50) - 1)))) = some (-10)
  norm_num

theorem scenario_fnetget_aaa : scenarioInput.fNetGet "AAA" = some 100 := by
  rw [FluxInput.fNetGet, if_pos (show "AAA" ∈ scenarioInput.aliveTickers by decide),
    scenario_fnet_aaa]

theorem scenario_fnetget_hedge : scenarioInput.fNetGet "HEDGE-ONLY" = some (-10) := by
  rw [FluxInput.fNetGet,
    if_pos (show "HEDGE-ONLY" ∈ scenarioInput.aliveTickers by decide),
    scenario_fnet_hedge]

theorem scenario_node_aaa : scenarioInput.nodesFNet "AAA" = some 100 := by
  rw [FluxInput.nodesFNet, if_neg (by decide), scenario_fnetget_aaa]

theorem scenario_node_hedge : scenarioInput.nodesFNet "HEDGE" = some (-10) := by
  rw [FluxInput.nodesFNet, if_pos rfl]
  show osum (["HEDGE-ONLY"].map scenarioInput.fNetGet) = some (-10)
  rw [List.map_cons, List.map_nil, scenario_fnetget_hedge, osum]
  simp

theorem scenario_outflows0 : scenarioInput.outflows0 = [("HEDGE", 10)] := by
  rw [FluxInput.outflows0, show scenarioInput.matrixNodes = ["AAA", "HEDGE"] from rfl,
    List.filterMap_cons, List.filterMap_cons, List.filterMap_nil,
    FluxInput.outVal, FluxInput.outVal, scenario_node_aaa, scenario_node_hedge]
  norm_num

theorem scenario_inflows0 : scenarioInput.inflows0 = [("AAA", 100)] := by
  rw [FluxInput.inflows0, show scenarioInput.matrixNodes = ["AAA", "HEDGE"] from rfl,
    List.filterMap_cons, List.filterMap_cons, List.filterMap_nil,
    FluxInput.inVal, FluxInput.inVal, scenario_node_aaa, scenario_node_hedge]
  norm_num

/-- The conservation correction: total_in (100) exceeds total_out (10), so
HEDGE's outflow bucket is raised by the difference 90 to 100. -/
theorem scenario_outflowsF : scenarioInput.outflowsF = [("HEDGE", 100)] := by
  rw [FluxInput.outflowsF, FluxInput.totalIn0, FluxInput.totalOut0,
    scenario_outflows0, scenario_inflows0]
  norm_num
  rw [dictAddAt]
  norm_num

theorem scenario_inflowsF : scenarioInput.inflowsF = [("AAA", 100)] := by
  rw [FluxInput.inflowsF, FluxInput.totalIn0, FluxInput.totalOut0,
    scenario_outflows0, scenario_inflows0]
  norm_num

theorem scenario_totalInF : scenarioInput.totalInF = 100 := by
  rw [FluxInput.totalInF, scenario_inflowsF]
  norm_num

theorem scenario_totalOutF : scenarioInput.totalOutF = 100 := by
  rw [FluxInput.totalOutF, scenario_outflowsF]
  norm_num

theorem scenario_entry_hedge_aaa : scenarioInput.fluxEntry "HEDGE" "AAA" = 100 := by
  rw [FluxInput.fluxEntry, if_pos (by rw [scenario_totalInF]; norm_num),
    scenario_outflowsF, scenario_inflowsF, scenario_totalInF]
  norm_num

theorem scenario_entry_aaa_aaa : scenarioInput.fluxEntry "AAA" "AAA" = 0 := by
  rw [FluxInput.fluxEntry, if_pos (by rw [scenario_totalInF]; norm_num),
    scenario_outflowsF, scenario_inflowsF]
  rfl

theorem scenario_entry_aaa_hedge : scenarioInput.fluxEntry "AAA" "HEDGE" = 0 := by
  rw [FluxInput.fluxEntry, if_pos (by rw [scenario_totalInF]; norm_num),
    scenario_outflowsF, scenario_inflowsF]
  rfl

theorem scenario_entry_hedge_hedge : scenarioInput.fluxEntry "HEDGE" "HEDGE" = 0 := by
  rw [FluxInput.fluxEntry, if_pos (by rw [scenario_totalInF]; norm_num),
    scenario_outflowsF, scenario_inflowsF]
  rfl

/-- **C2, counterexample.** On the spec's own scenario the single non-zero
cell `HEDGE -> AAA` is `100`, not `10`: after the conservation correction
the outflow side (originally `10`) is raised to the inflow total `100`, and
the whole `100` is allocated to `AAA`, so the claimed matrix (only cell
`HEDGE -> AAA = 10`, conservation `10 = 10`) is not what the code returns. -/
theorem scenario_hedge_to_aaa_not_ten :
    ((generate_net_flux_matrix scenarioInput).map (fun M => M.entry "HEDGE" "AAA")
        = some 100)
    ∧ ¬ ((generate_net_flux_matrix scenarioInput).map (fun M => M.entry "HEDGE" "AAA")
        = some 10) := by
  have hgen : generate_net_flux_matrix scenarioInput
      = some ⟨scenarioInput.matrixNodes, scenarioInput.fluxEntry⟩ := rfl
  rw [hgen]
  constructor
  · show some (scenarioInput.fluxEntry "HEDGE" "AAA") = some 100
    rw [scenario_entry_hedge_aaa]
  · show ¬ some (scenarioInput.fluxEntry "HEDGE" "AAA") = some 10
    rw [scenario_entry_hedge_aaa]
    intro hc
    have h10 : (100 : ℚ) = 10 := Option.some_inj.mp hc
    norm_num at h10

/-- **C2, amended.** On the scenario input the computation finds
`f_net(AAA) = +100` and `f_net(HEDGE-ONLY) = −10`; the conservation
correction raises HEDGE's outflow bucket from 10 to 100, so the returned
2×2 matrix has `HEDGE -> AAA = 100` as its only non-zero cell and both
totals equal 100 (conservation holds as 100 = 100, not 10 = 10). -/
theorem scenario_flux_matrix :
    (generate_net_flux_matrix scenarioInput).map (fun M => M.nodes)
        = some ["AAA", "HEDGE"]
    ∧ (generate_net_flux_matrix scenarioInput).map (fun M => M.entry "HEDGE" "AAA")
        = some 100
    ∧ (generate_net_flux_matrix scenarioInput).map (fun M => M.entry "AAA" "AAA")
        = some 0
    ∧ (generate_net_flux_matrix scenarioInput).map (fun M => M.entry "AAA" "HEDGE")
        = some 0
    ∧ (generate_net_flux_matrix scenarioInput).map (fun M => M.entry "HEDGE" "HEDGE")
        = some 0
    ∧ scenarioInput.fNetOf "AAA" = some 100
    ∧ scenarioInput.fNetOf "HEDGE-ONLY" = some (-10)
    ∧ scenarioInput.totalOutF = 100
    ∧ scenarioInput.totalInF = 100 := by
  have hgen : generate_net_flux_matrix scenarioInput
      = some ⟨scenarioInput.matrixNodes, scenarioInput.fluxEntry⟩ := rfl
  refine ⟨?_, ?_, ?_, ?_, ?_, scenario_fnet_aaa, scenario_fnet_hedge,
    scenario_totalOutF, scenario_totalInF⟩
  · rw [hgen]; rfl
  · rw [hgen]
    show some (scenarioInput.fluxEntry "HEDGE" "AAA") = some 100
    rw [scenario_entry_hedge_aaa]
  · rw [hgen]
    show some (scenarioInput.fluxEntry "AAA" "AAA") = some 0
    rw [scenario_entry_aaa_aaa]
  · rw [hgen]
    show some (scenarioInput.fluxEntry "AAA" "HEDGE") = some 0
    rw [scenario_entry_aaa_hedge]
  · rw [hgen]
    show some (scenarioInput.fluxEntry "HEDGE" "HEDGE") = some 0
    rw [scenario_entry_hedge_hedge]

/-- **C1, witness.** The conservation theorem applied to the concrete
scenario input (which has one surviving ticker with negative net flow,
HEDGE-ONLY, and one with positive net flow, AAA). -/
theorem flux_matrix_conservation_witness :
    (∀ s ∈ (FluxMatrix.mk scenarioInput.matrixNodes scenarioInput.fluxEntry).nodes,
        ∀ t ∈ (FluxMatrix.mk scenarioInput.matrixNodes scenarioInput.fluxEntry).nodes,
          0 ≤ (FluxMatrix.mk scenarioInput.matrixNodes scenarioInput.fluxEntry).entry s t)
    ∧ (∀ s, rowSum (FluxMatrix.mk scenarioInput.matrixNodes scenarioInput.fluxEntry) s
        = (scenarioInput.outflowsF.lookup s).getD 0)
    ∧ (∀ t, colSum (FluxMatrix.mk scenarioInput.matrixNodes scenarioInput.fluxEntry) t
        = (scenarioInput.inflowsF.lookup t).getD 0)
    ∧ totalMass (FluxMatrix.mk scenarioInput.matrixNodes scenarioInput.fluxEntry)
        = scenarioInput.totalOutF
    ∧ totalMass (FluxMatrix.mk scenarioInput.matrixNodes scenarioInput.fluxEntry)
        = scenarioInput.totalInF :=
  flux_matrix_conservation scenarioInput (by decide) (by decide)
    (FluxMatrix.mk scenarioInput.matrixNodes scenarioInput.fluxEntry) rfl
    ⟨"HEDGE-ONLY", by decide, -10, scenario_fnet_hedge, by norm_num⟩
    ⟨"AAA", by decide, 100, scenario_fnet_aaa, by norm_num⟩

end SectorFlux

namespace SectorFlux

/-! ## C4: behaviour when a requested date has no rows -/

def partialDb : List DbRow :=
  [ { date := "2024-01-02", symbol := "AAA", price := some 100, marketCap := some 1000 } ]

/-- An input whose `now_date` has zero retrievable rows while the
`past_date` has one. -/
def partialInput : FluxInput :=
  { db := partialDb, pastDate := "2024-01-02", nowDate := "2024-02-01",
    targetAssets := ["AAA"], hedgeAssets := ["BIL"] }

/-- **C4, counterexample.** When only one of the two dates has rows the
function does not return explicit absence: the combined query is non-empty,
so it proceeds, prunes every ticker (none is alive at both dates), and
returns the 1×1 all-zero matrix over `['HEDGE']`. -/
theorem partial_date_returns_zero_matrix :
    partialInput.availableNow = []
    ∧ (generate_net_flux_matrix partialInput).isSome = true
    ∧ (generate_net_flux_matrix partialInput).map (fun M => M.nodes) = some ["HEDGE"]
    ∧ (generate_net_flux_matrix partialInput).map (fun M => M.entry "HEDGE" "HEDGE")
        = some 0 := by
  refine ⟨by decide, by decide, by decide, by decide⟩

/-- **C4, amended.** `generate_net_flux_matrix` returns `None` exactly when
the combined two-date query returns zero rows (`if df.empty`); a date that
is individually empty while the other has rows yields a zero matrix over
`['HEDGE']`, not `None`. -/
theorem generate_none_iff_rows_empty (i : FluxInput) :
    generate_net_flux_matrix i = none ↔ i.rows = [] := by
  rw [generate_net_flux_matrix]
  by_cases h : i.rows.isEmpty
  · simp only [if_pos h]
    simpa using List.isEmpty_iff.mp h
  · simp only [if_neg h]
    constructor
    · intro hc
      cases hc
    · intro hc
      exact absurd (by simp [hc]) h

/-- **C4 amended, witness:** on an empty fact table the query is empty and
the function returns `None`. -/
theorem generate_none_iff_rows_empty_witness :
    generate_net_flux_matrix
      { db := [], pastDate := "2024-01-02", nowDate := "2024-02-01",
        targetAssets := ["AAA"], hedgeAssets := ["BIL"] } = none :=
  (generate_none_iff_rows_empty _).mpr rfl

/-! ## C10: degenerate past-side data yields a zero-flow node -/

/-- **C10.** A ticker that survives lifecycle pruning but whose past-date
market cap is `NULL` or whose past-date close is `0` gets net flow exactly
`0` (the `else` branch of the guard): it stays in the aggregation as a
zero-flow node — `f_net_dict[s] = 0`, and if it is a target it is still one
of the matrix nodes with `nodes_f_net[s] = 0` — rather than being dropped
or propagating a null. -/
theorem degenerate_past_is_zero_flow_node
    (i : FluxInput) (s : String) (hs : s ∈ i.aliveTickers)
    (rp : DbRow) (hrp : i.rowFor i.pastDate s = some rp)
    (hdeg : rp.marketCap = none ∨ rp.price = some 0) :
    i.fNetOf s = some 0
    ∧ i.fNetGet s = some 0
    ∧ (s ∈ i.targetAssets → s ≠ "HEDGE" →
        s ∈ i.matrixNodes ∧ i.nodesFNet s = some 0) := by
  have hof : i.fNetOf s = some 0 := by
    rw [FluxInput.fNetOf, hrp]
    rcases hrn : i.rowFor i.nowDate s with - | rn
    · rfl
    · show fNet rp rn = some 0
      rcases hdeg with hmc | hpz
      · rw [fNet, hmc]
      · rcases hmc : rp.marketCap with - | mc
        · rw [fNet, hmc]
        · rw [fNet, hmc, hpz]
          simp
  have hget : i.fNetGet s = some 0 := by
    rw [FluxInput.fNetGet, if_pos hs]
    exact hof
  refine ⟨hof, hget, ?_⟩
  intro hst hsh
  constructor
  · exact List.mem_append.mpr (Or.inl (List.mem_filter.mpr ⟨hst, by simpa using hs⟩))
  · rw [FluxInput.nodesFNet, if_neg hsh]
    exact hget

def degenerateDb : List DbRow :=
  [ { date := "2024-01-02", symbol := "AAA", price := some 100, marketCap := none },
    { date := "2024-02-01", symbol := "AAA", price := some 110, marketCap := some 1200 } ]

def degenerateInput : FluxInput :=
  { db := degenerateDb, pastDate := "2024-01-02", nowDate := "2024-02-01",
    targetAssets := ["AAA"], hedgeAssets := [] }

/-- **C10, witness.** The degenerate-past theorem applied to a concrete
input whose past-date `AAA` row has a `NULL` market cap. -/
theorem degenerate_past_is_zero_flow_node_witness :
    degenerateInput.fNetOf "AAA" = some 0
    ∧ degenerateInput.fNetGet "AAA" = some 0
    ∧ ("AAA" ∈ degenerateInput.targetAssets → "AAA" ≠ "HEDGE" →
        "AAA" ∈ degenerateInput.matrixNodes
          ∧ degenerateInput.nodesFNet "AAA" = some 0) :=
  degenerate_past_is_zero_flow_node degenerateInput "AAA" (by decide)
    { date := "2024-01-02", symbol := "AAA", price := some 100, marketCap := none }
    (by decide) (Or.inl rfl)

end SectorFlux

namespace SectorFlux

/-! ## C3: the 5-year chunk loop of `_fetch_and_store_prices`

```
CHUNK_SIZE_DAYS = 1825
end_date = datetime.now()
start_date_limit = end_date - timedelta(days=history_days)
cursor_end = end_date
while cursor_end > start_date_limit:
    cursor_start = cursor_end - timedelta(days=CHUNK_SIZE_DAYS)
    if cursor_start < start_date_limit:
        cursor_start = start_date_limit
    ... fetch [cursor_start, cursor_end] ...
    cursor_end = cursor_start - timedelta(days=1)
```

Cursors are integer day offsets (all cursors share `now`'s time of day, so
`timedelta` day arithmetic is exactly integer arithmetic). The while loop
is embedded with a fuel argument that only bounds the iteration count; any
fuel ≥ the lookback is exact (each iteration moves the cursor back at least
1826 days or ends the loop). -/

def CHUNK_SIZE_DAYS : ℤ := 1825

def chunkLoop (limit : ℤ) : ℕ → ℤ → List (ℤ × ℤ)
  | 0, _ => []
  | fuel + 1, cursorEnd =>
    if cursorEnd > limit then
      let cs0 := cursorEnd - CHUNK_SIZE_DAYS
      let cs := if cs0 < limit then limit else cs0
      (cs, cursorEnd) :: chunkLoop limit fuel (cs - 1)
    else []

/-- The chunk sequence for a lookback of `L` days ending at day `now`. -/
def fetchChunks (now : ℤ) (L : ℕ) : List (ℤ × ℤ) :=
  chunkLoop (now - L) L now

/-- Day `x` lies in one of the fetched ranges. -/
def covers (chs : List (ℤ × ℤ)) (x : ℤ) : Prop :=
  ∃ p ∈ chs, p.1 ≤ x ∧ x ≤ p.2

theorem chunkLoop_nil (limit : ℤ) (fuel : ℕ) (c : ℤ) (h : ¬ c > limit) :
    chunkLoop limit fuel c = [] := by
  cases fuel with
  | zero => rfl
  | succ fuel => rw [chunkLoop, if_neg h]

theorem covers_cons (a : ℤ × ℤ) (rest : List (ℤ × ℤ)) (x : ℤ) :
    covers (a :: rest) x ↔ ((a.1 ≤ x ∧ x ≤ a.2) ∨ covers rest x) := by
  constructor
  · rintro ⟨p, hp, h1, h2⟩
    rcases List.mem_cons.mp hp with rfl | hp'
    · exact Or.inl ⟨h1, h2⟩
    · exact Or.inr ⟨p, hp', h1, h2⟩
  · rintro (⟨h1, h2⟩ | ⟨p, hp, h1, h2⟩)
    · exact ⟨a, List.mem_cons_self _ _, h1, h2⟩
    · exact ⟨p, List.mem_cons_of_mem _ hp, h1, h2⟩

/-- Exact description of the chunk loop: chunk count `⌈d/1826⌉` (NOT
`⌈d/1825⌉`), backward-walking contiguous non-overlapping chunks of span at
most 1825 days, and coverage of `[limit, c]` except that the single day
`limit` is missed exactly when `1826 ∣ (c − limit)`. -/
theorem chunkLoop_spec (limit : ℤ) :
    ∀ (fuel : ℕ) (c : ℤ), limit < c → (c - limit).toNat ≤ fuel →
      (chunkLoop limit fuel c).length = ((c - limit).toNat + 1825) / 1826
      ∧ (chunkLoop limit fuel c).head?
          = some (if c - 1825 < limit then limit else c - 1825, c)
      ∧ List.Chain' (fun a b => b.2 = a.1 - 1) (chunkLoop limit fuel c)
      ∧ (∀ p ∈ chunkLoop limit fuel c, p.1 ≤ p.2 ∧ p.2 - p.1 ≤ 1825)
      ∧ (∀ x : ℤ, covers (chunkLoop limit fuel c) x
          ↔ (limit ≤ x ∧ x ≤ c ∧ ((1826 : ℤ) ∣ (c - limit) → limit < x))) := by
  intro fuel
  induction fuel with
  | zero =>
    intro c hc hf
    exfalso
    omega
  | succ fuel ih =>
    intro c hc hf
    rw [chunkLoop, if_pos hc]
    simp only [CHUNK_SIZE_DAYS]
    by_cases hclip : c - 1825 < limit
    · -- clipped final chunk [limit, c]; the loop then stops
      rw [if_pos hclip]
      have hrest : chunkLoop limit fuel (limit - 1) = [] :=
        chunkLoop_nil _ _ _ (by omega)
      rw [hrest]
      have hnd : ¬ ((1826 : ℤ) ∣ (c - limit)) := by
        rw [Int.dvd_iff_emod_eq_zero]
        omega
      refine ⟨by simp; omega, by rw [List.head?_cons], List.chain'_singleton _, ?_, ?_⟩
      · intro p hp
        rcases List.mem_singleton.mp hp with rfl
        constructor <;> simp <;> omega
      · intro x
        rw [covers_cons]
        simp only [covers, List.not_mem_nil, false_and, exists_false, or_false]
        constructor
        · rintro ⟨h1, h2⟩
          exact ⟨h1, h2, fun hd => absurd hd hnd⟩
        · rintro ⟨h1, h2, -⟩
          exact ⟨h1, h2⟩
    · rw [if_neg hclip]
      by_cases hnext : c - 1825 - 1 > limit
      · -- full chunk [c-1825, c], loop continues at c - 1826
        have hih := ih (c - 1825 - 1) (by omega) (by omega)
        rcases hih with ⟨hlen, hhead, hchain, hspan, hcov⟩
        refine ⟨?_, by rw [List.head?_cons], ?_, ?_, ?_⟩
        · simp only [List.length_cons, hlen]
          omega
        · rw [List.chain'_cons']
          refine ⟨?_, hchain⟩
          intro y hy
          rw [hhead] at hy
          rcases Option.mem_some_iff.mp hy with rfl
          rfl
        · intro p hp
          rcases List.mem_cons.mp hp with rfl | hp'
          · exact ⟨by simp, by simp⟩
          · exact hspan p hp'
        · intro x
          rw [covers_cons, hcov x]
          simp only [Int.dvd_iff_emod_eq_zero]
          omega
      · -- full chunk [c-1825, c] exactly reaches (or overshoots by one)
        -- the limit; the loop stops
        have hrest : chunkLoop limit fuel (c - 1825 - 1) = [] :=
          chunkLoop_nil _ _ _ hnext
        rw [hrest]
        refine ⟨by simp; omega, by rw [List.head?_cons], List.chain'_singleton _, ?_, ?_⟩
        · intro p hp
          rcases List.mem_singleton.mp hp with rfl
          exact ⟨by simp, by simp⟩
        · intro x
          rw [covers_cons]
          simp only [covers, List.not_mem_nil, false_and, exists_false, or_false]
          rw [Int.dvd_iff_emod_eq_zero]
          omega

end SectorFlux

namespace SectorFlux

/-- **C3, amended.** For every lookback `L ≥ 1` with max chunk size
`C = 1825` days, the chunk sequence walks backward from `now` in
contiguous, non-overlapping ranges (each next chunk ends the day before the
previous chunk starts) of span at most `C`; the first chunk ends at `now`;
the number of chunks is `⌈L/(C+1)⌉ = (L+1825)/1826` (one chunk whenever
`L ≤ C`, and indeed whenever `L ≤ C+1`); and the chunks cover exactly
`[now−L, now]` **except** that the single earliest day `now−L` is skipped
when `(C+1) = 1826` divides `L` (the backward step
`cursor_end = cursor_start − 1 day` makes each iteration consume 1826 day
points, so the loop guard can expire one day early). -/
theorem range_planner_spec (now : ℤ) (L : ℕ) (hL : 1 ≤ L) :
    (fetchChunks now L).length = (L + 1825) / 1826
    ∧ (L ≤ 1825 → (fetchChunks now L).length = 1)
    ∧ List.Chain' (fun a b => b.2 = a.1 - 1) (fetchChunks now L)
    ∧ (fetchChunks now L).head?.map Prod.snd = some now
    ∧ (∀ p ∈ fetchChunks now L, p.1 ≤ p.2 ∧ p.2 - p.1 ≤ 1825)
    ∧ (∀ x : ℤ, covers (fetchChunks now L) x
        ↔ (now - L ≤ x ∧ x ≤ now ∧ ((1826 : ℤ) ∣ (L : ℤ) → now - L < x))) := by
  have hlt : now - (L : ℤ) < now := by omega
  have htn : (now - (now - (L : ℤ))).toNat ≤ L := by omega
  have h := chunkLoop_spec (now - L) L now hlt htn
  rcases h with ⟨hlen, hhead, hchain, hspan, hcov⟩
  have hd : (now - (now - (L : ℤ))).toNat = L := by omega
  rw [hd] at hlen
  refine ⟨hlen, ?_, hchain, ?_, hspan, ?_⟩
  · intro hsmall
    rw [show fetchChunks now L = chunkLoop (now - L) L now from rfl, hlen]
    omega
  · rw [show fetchChunks now L = chunkLoop (now - L) L now from rfl, hhead,
      Option.map_some']
  · intro x
    have := hcov x
    rw [show fetchChunks now L = chunkLoop (now - L) L now from rfl, this]
    have he : now - (now - (L : ℤ)) = (L : ℤ) := by omega
    rw [he]

/-- **C3, counterexample.** At lookback `L = 1826` (with `C = 1825`) the
loop produces exactly one chunk `[now−1825, now]` (here `now = 0`), not the
claimed `⌈L/C⌉ = 2` chunks, and the day `now − L = −1826` is covered by no
chunk, so the sequence does not cover `[now−L, now]`. -/
theorem range_planner_miss_1826 :
    fetchChunks 0 1826 = [(-1825, 0)]
    ∧ (fetchChunks 0 1826).length = 1
    ∧ (1826 + 1825 - 1) / 1825 = 2
    ∧ ¬ covers (fetchChunks 0 1826) (-1826) := by
  refine ⟨by decide, by decide, by decide, ?_⟩
  rintro ⟨p, hp, h1, h2⟩
  have hpe : p = (-1825, 0) := by
    have : fetchChunks 0 1826 = [(-1825, 0)] := by decide
    rw [this] at hp
    exact List.mem_singleton.mp hp
  rw [hpe] at h1
  omega

/-- **C3 amended, witness:** the planner theorem applied at `now = 0`,
`L = 2000`. -/
theorem range_planner_spec_witness :
    (fetchChunks 0 2000).length = (2000 + 1825) / 1826
    ∧ (2000 ≤ 1825 → (fetchChunks 0 2000).length = 1)
    ∧ List.Chain' (fun a b => b.2 = a.1 - 1) (fetchChunks 0 2000)
    ∧ (fetchChunks 0 2000).head?.map Prod.snd = some 0
    ∧ (∀ p ∈ fetchChunks 0 2000, p.1 ≤ p.2 ∧ p.2 - p.1 ≤ 1825)
    ∧ (∀ x : ℤ, covers (fetchChunks 0 2000) x
        ↔ ((0 : ℤ) - (2000 : ℕ) ≤ x ∧ x ≤ 0
            ∧ ((1826 : ℤ) ∣ ((2000 : ℕ) : ℤ) → (0 : ℤ) - (2000 : ℕ) < x))) :=
  range_planner_spec 0 2000 (by norm_num)

end SectorFlux

namespace SectorFlux

/-! ## C5: `upsert_market_data` — staging + MERGE upsert

The normalized batch and the `Fact_DailyPrice` fact table both carry the
`required_cols` of the writer:
`Date, Symbol, Open, High, Low, Close, Volume, Market_Cap,
Shares_Outstanding` (missing columns are filled with `NULL`, so every field
is nullable except the key). -/

structure PriceRow where
  date : String
  symbol : String
  openPrice : Option ℚ
  high : Option ℚ
  low : Option ℚ
  close : Option ℚ
  volume : Option ℚ
  marketCap : Option ℚ
  sharesOutstanding : Option ℚ
deriving DecidableEq

/-- The MERGE key: `ON target.Date = source.Date AND target.Symbol = source.Symbol`. -/
def rowKey (r : PriceRow) : String × String := (r.date, r.symbol)

/-- `WHEN MATCHED THEN UPDATE SET ...`: every non-key column of the target
row takes the staging (source) row's value. -/
def applyMatched (target source : PriceRow) : PriceRow :=
  { target with
    openPrice := source.openPrice, high := source.high, low := source.low,
    close := source.close, volume := source.volume,
    marketCap := source.marketCap,
    sharesOutstanding := source.sharesOutstanding }

/-- The `MERGE INTO {table} USING {staging} ON (Date, Symbol)` statement:
each matched target row is updated from its (key-unique) staging row, and
each staging row with no matching target key is inserted. -/
def mergeInto (table batch : List PriceRow) : List PriceRow :=
  (table.map (fun t =>
    match batch.find? (fun s => rowKey s = rowKey t) with
    | some s => applyMatched t s
    | none => t))
  ++ batch.filter (fun s => ! table.any (fun t => rowKey t = rowKey s))

/-- `upsert_market_data` on the success path: empty batches return early
(`if df is None or df.empty: return`), otherwise the staging write + MERGE
transaction commits and the fact table becomes the merged table. -/
def upsert_market_data (table batch : List PriceRow) : List PriceRow :=
  if batch.isEmpty then table else mergeInto table batch

theorem rowKey_applyMatched (t s : PriceRow) :
    rowKey (applyMatched t s) = rowKey t := rfl

theorem applyMatched_self (s : PriceRow) : applyMatched s s = s := rfl

theorem applyMatched_applyMatched (t s : PriceRow) :
    applyMatched (applyMatched t s) s = applyMatched t s := rfl

/-- The merged table's keys: the table's keys followed by the keys of the
genuinely new batch rows. -/
theorem mergeInto_map_key (table batch : List PriceRow) :
    (mergeInto table batch).map rowKey
      = table.map rowKey
        ++ (batch.filter
              (fun s => ! table.any (fun t => rowKey t = rowKey s))).map rowKey := by
  rw [mergeInto, List.map_append, List.map_map]
  congr 1
  refine List.map_congr_left ?_
  intro t _
  rcases h : batch.find? (fun s => rowKey s = rowKey t) with - | s <;>
    simp [h, rowKey_applyMatched]

theorem any_key_iff (table : List PriceRow) (s : PriceRow) :
    table.any (fun t => rowKey t = rowKey s) = true
      ↔ rowKey s ∈ table.map rowKey := by
  rw [List.any_eq_true]
  constructor
  · rintro ⟨t, hmem, ht⟩
    exact List.mem_map.mpr ⟨t, hmem, (by simpa using ht)⟩
  · rintro h
    rcases List.mem_map.mp h with ⟨t, hmem, ht⟩
    exact ⟨t, hmem, by simp [ht]⟩

/-- Every batch key is present in the merged table. -/
theorem batch_key_mem_merge (table batch : List PriceRow) :
    ∀ s ∈ batch, rowKey s ∈ (mergeInto table batch).map rowKey := by
  intro s hs
  rw [mergeInto_map_key, List.mem_append]
  by_cases h : rowKey s ∈ table.map rowKey
  · exact Or.inl h
  · refine Or.inr (List.mem_map.mpr ⟨s, ?_, rfl⟩)
    refine List.mem_filter.mpr ⟨hs, ?_⟩
    have hno : ¬ (table.any (fun t => rowKey t = rowKey s) = true) :=
      fun hc => h ((any_key_iff table s).mp hc)
    simpa using hno

/-- The merged table has no duplicate `(Date, Symbol)` keys. -/
theorem mergeInto_key_nodup (table batch : List PriceRow)
    (ht : (table.map rowKey).Nodup) (hb : (batch.map rowKey).Nodup) :
    ((mergeInto table batch).map rowKey).Nodup := by
  rw [mergeInto_map_key]
  refine List.Nodup.append ht ?_ ?_
  · exact (List.Sublist.map rowKey (List.filter_sublist _)).nodup hb
  · intro k hk hk'
    rcases List.mem_map.mp hk' with ⟨s, hs, rfl⟩
    have := (List.mem_filter.mp hs).2
    rw [Bool.not_eq_eq_eq_not, Bool.not_true, ← Bool.not_eq_true, any_key_iff] at this
    exact this hk

/-- Overwrite semantics: every merged row whose key appears in the batch
carries the batch row's values on all non-key columns. -/
theorem mergeInto_overwrites (table batch : List PriceRow)
    (hb : (batch.map rowKey).Nodup) :
    ∀ s ∈ batch, ∀ r ∈ mergeInto table batch,
      rowKey r = rowKey s → r = applyMatched r s := by
  intro s hs r hr hk
  rw [mergeInto, List.mem_append] at hr
  rcases hr with hr | hr
  · rcases List.mem_map.mp hr with ⟨t, htm, hte⟩
    rcases hf : batch.find? (fun s' => rowKey s' = rowKey t) with - | s0
    · simp only [hf] at hte
      exfalso
      have hnone := List.find?_eq_none.mp hf s hs
      apply hnone
      have hts : rowKey s = rowKey t := by rw [← hk, ← hte]
      simp [hts]
    · simp only [hf] at hte
      have hs0b : s0 ∈ batch := List.mem_of_find?_eq_some hf
      have hs0k : rowKey s0 = rowKey t := by
        simpa using List.find?_some hf
      have hkr : rowKey r = rowKey t := by
        rw [← hte, rowKey_applyMatched]
      have hss0 : s0 = s :=
        List.inj_on_of_nodup_map hb hs0b hs (by rw [hs0k, ← hkr, hk])
      subst hss0
      rw [← hte]
      exact (applyMatched_applyMatched t s0).symm
  · have hrb : r ∈ batch := (List.mem_filter.mp hr).1
    have hrs : r = s := List.inj_on_of_nodup_map hb hrb hs hk
    subst hrs
    exact (applyMatched_self r).symm

end SectorFlux

namespace SectorFlux

/-- Re-applying the same key-unique batch leaves the merged table unchanged. -/
theorem mergeInto_idem (table batch : List PriceRow)
    (hb : (batch.map rowKey).Nodup) :
    mergeInto (mergeInto table batch) batch = mergeInto table batch := by
  set T := mergeInto table batch with hT
  have hfilter : batch.filter (fun s => ! T.any (fun t => rowKey t = rowKey s)) = [] := by
    rw [List.filter_eq_nil_iff]
    intro s hs
    have hmem : rowKey s ∈ T.map rowKey := by
      rw [hT]
      exact batch_key_mem_merge table batch s hs
    have hany : T.any (fun t => rowKey t = rowKey s) = true := (any_key_iff T s).mpr hmem
    simp [hany]
  have hpt : ∀ r ∈ T, (match batch.find? (fun s => rowKey s = rowKey r) with
      | some s => applyMatched r s
      | none => r) = r := by
    intro r hr
    rcases hf : batch.find? (fun s => rowKey s = rowKey r) with - | s0
    · simp [hf]
    · simp only [hf]
      have hs0b : s0 ∈ batch := List.mem_of_find?_eq_some hf
      have hk : rowKey s0 = rowKey r := by
        simpa using List.find?_some hf
      exact (mergeInto_overwrites table batch hb s0 hs0b r (hT ▸ hr) hk.symm).symm
  rw [mergeInto, hfilter, List.append_nil]
  calc T.map (fun t => match batch.find? (fun s => rowKey s = rowKey t) with
        | some s => applyMatched t s
        | none => t)
      = T.map id := List.map_congr_left (fun r hr => hpt r hr)
    _ = T := List.map_id T

/-- **C5.** Upserting a normalized (key-unique) batch is idempotent: a
second application of the same batch leaves the stored rows unchanged; the
stored table keeps unique `(Date, Symbol)` keys (no duplicated rows); every
batch key is present after the upsert (new keys are inserted); and every
stored row whose key is in the batch carries the batch row's values on all
non-key columns (existing keys are overwritten, last write wins). -/
theorem upsert_idempotent
    (table batch : List PriceRow)
    (ht : (table.map rowKey).Nodup) (hb : (batch.map rowKey).Nodup) :
    upsert_market_data (upsert_market_data table batch) batch
        = upsert_market_data table batch
    ∧ ((upsert_market_data table batch).map rowKey).Nodup
    ∧ (∀ s ∈ batch, rowKey s ∈ (upsert_market_data table batch).map rowKey)
    ∧ (∀ s ∈ batch, ∀ r ∈ upsert_market_data table batch,
        rowKey r = rowKey s → r = applyMatched r s) := by
  by_cases he : batch.isEmpty
  · have hbe : batch = [] := List.isEmpty_iff.mp he
    subst hbe
    simp only [upsert_market_data, List.isEmpty_nil, if_pos]
    refine ⟨by simp, ht, by simp, by simp⟩
  · simp only [upsert_market_data, if_neg he]
    exact ⟨mergeInto_idem table batch hb, mergeInto_key_nodup table batch ht hb,
      batch_key_mem_merge table batch, mergeInto_overwrites table batch hb⟩

def sampleTable : List PriceRow :=
  [ { date := "2024-01-02", symbol := "AAA", openPrice := some 1, high := some 2,
      low := some 1, close := some 2, volume := some 100,
      marketCap := some 1000, sharesOutstanding := some 500 } ]

def sampleBatch : List PriceRow :=
  [ { date := "2024-01-02", symbol := "AAA", openPrice := some 3, high := some 4,
      low := some 2, close := some 3, volume := some 120,
      marketCap := some 1100, sharesOutstanding := none },
    { date := "2024-01-03", symbol := "BBB", openPrice := some 5, high := some 6,
      low := some 4, close := some 5, volume := some 50,
      marketCap := none, sharesOutstanding := none } ]

/-- **C5, witness.** The upsert theorem applied to a concrete one-row table
and a two-row batch (one overwriting key, one new key). -/
theorem upsert_idempotent_witness :
    upsert_market_data (upsert_market_data sampleTable sampleBatch) sampleBatch
        = upsert_market_data sampleTable sampleBatch
    ∧ ((upsert_market_data sampleTable sampleBatch).map rowKey).Nodup
    ∧ (∀ s ∈ sampleBatch,
        rowKey s ∈ (upsert_market_data sampleTable sampleBatch).map rowKey)
    ∧ (∀ s ∈ sampleBatch, ∀ r ∈ upsert_market_data sampleTable sampleBatch,
        rowKey r = rowKey s → r = applyMatched r s) :=
  upsert_idempotent sampleTable sampleBatch (by decide) (by decide)

end SectorFlux

namespace SectorFlux

/-! ## C6: the deadlock-retry policy of `upsert_market_data`

```
max_retries = 3
for attempt in range(max_retries):
    try:
        ... staging write + MERGE ...; trans.commit(); break
    except Exception as e:
        if trans: trans.rollback()
        error_msg = str(e)
        if '1205' in error_msg or 'Deadlock' in error_msg:
            if attempt < max_retries - 1:
                time.sleep((attempt + 1) * 2)
                continue
        logger.error(...); raise e
```

Each attempt's outcome is exogenous input: `none` = the transaction
commits, `some msg` = it raises with message `msg`. -/

/-- `'1205' in error_msg or 'Deadlock' in error_msg` (Python substring
membership via `splitOn`: a needle occurs iff splitting on it produces more
than one piece). -/
def isDeadlockMsg (msg : String) : Bool :=
  (msg.splitOn "1205").length > 1 || (msg.splitOn "Deadlock").length > 1

def maxRetries : ℕ := 3

inductive UpsertOutcome where
  | committed (attempts : ℕ) (delays : List ℕ)
  | raised (attempts : ℕ) (delays : List ℕ) (msg : String)
deriving DecidableEq

/-- The retry loop. `remaining` is the number of loop iterations left
(`maxRetries - attempt`); the wrapper starts it at `maxRetries`, and the
fuel-0 branch is unreachable from the wrapper because the final iteration
(`attempt = maxRetries - 1`) always commits or raises. `delays` accumulates
the `time.sleep((attempt + 1) * 2)` calls, most recent first. -/
def upsertLoop (ar : ℕ → Option String) : ℕ → ℕ → List ℕ → UpsertOutcome
  | 0, attempt, delays => .raised attempt delays.reverse ""
  | remaining + 1, attempt, delays =>
    match ar attempt with
    | none => .committed (attempt + 1) delays.reverse
    | some msg =>
      if isDeadlockMsg msg ∧ attempt < maxRetries - 1 then
        upsertLoop ar remaining (attempt + 1) (((attempt + 1) * 2) :: delays)
      else .raised (attempt + 1) delays.reverse msg

/-- One call of `upsert_market_data` viewed through its attempt outcomes. -/
def upsert_retry (ar : ℕ → Option String) : UpsertOutcome :=
  upsertLoop ar maxRetries 0 []

def attemptsOf : UpsertOutcome → ℕ
  | .committed a _ => a
  | .raised a _ _ => a

def delaysOf : UpsertOutcome → List ℕ
  | .committed _ d => d
  | .raised _ d _ => d

theorem upsert_trace_ok0 (o : ℕ → Option String) (h0 : o 0 = none) :
    upsert_retry o = .committed 1 [] := by
  simp [upsert_retry, maxRetries, upsertLoop, h0]

theorem upsert_trace_fail0 (o : ℕ → Option String) (m : String)
    (h0 : o 0 = some m) (hd : isDeadlockMsg m = false) :
    upsert_retry o = .raised 1 [] m := by
  simp [upsert_retry, maxRetries, upsertLoop, h0, hd]

theorem upsert_trace_ok1 (o : ℕ → Option String) (m0 : String)
    (h0 : o 0 = some m0) (hd0 : isDeadlockMsg m0 = true) (h1 : o 1 = none) :
    upsert_retry o = .committed 2 [2] := by
  simp [upsert_retry, maxRetries, upsertLoop, h0, hd0, h1]

theorem upsert_trace_fail1 (o : ℕ → Option String) (m0 m : String)
    (h0 : o 0 = some m0) (hd0 : isDeadlockMsg m0 = true)
    (h1 : o 1 = some m) (hd : isDeadlockMsg m = false) :
    upsert_retry o = .raised 2 [2] m := by
  simp [upsert_retry, maxRetries, upsertLoop, h0, hd0, h1, hd]

theorem upsert_trace_ok2 (o : ℕ → Option String) (m0 m1 : String)
    (h0 : o 0 = some m0) (hd0 : isDeadlockMsg m0 = true)
    (h1 : o 1 = some m1) (hd1 : isDeadlockMsg m1 = true) (h2 : o 2 = none) :
    upsert_retry o = .committed 3 [2, 4] := by
  simp [upsert_retry, maxRetries, upsertLoop, h0, hd0, h1, hd1, h2]

theorem upsert_trace_fail2 (o : ℕ → Option String) (m0 m1 m : String)
    (h0 : o 0 = some m0) (hd0 : isDeadlockMsg m0 = true)
    (h1 : o 1 = some m1) (hd1 : isDeadlockMsg m1 = true) (h2 : o 2 = some m) :
    upsert_retry o = .raised 3 [2, 4] m := by
  simp [upsert_retry, maxRetries, upsertLoop, h0, hd0, h1, hd1, h2]

end SectorFlux

namespace SectorFlux

/-- **C6.** The write path makes at most 3 attempts in total; every
non-final attempt failed with a deadlock-classified error (`'1205'` or
`'Deadlock'` in the message) — i.e. only such failures trigger a retry of
the whole staging + merge attempt; the sleeps between attempts are
`2s, 4s` (strictly increasing); a failure not classified as deadlock is
re-raised immediately at whatever attempt it occurs (no further retries);
and a deadlock-classified failure on the final (third) attempt is
re-raised. -/
theorem upsert_retry_policy (o : ℕ → Option String) :
    attemptsOf (upsert_retry o) ≤ 3
    ∧ (∀ k, k + 1 < attemptsOf (upsert_retry o) →
        ∃ m, o k = some m ∧ isDeadlockMsg m = true)
    ∧ delaysOf (upsert_retry o)
        = (List.range (attemptsOf (upsert_retry o) - 1)).map (fun j => (j + 1) * 2)
    ∧ List.Chain' (fun a b => a < b) (delaysOf (upsert_retry o))
    ∧ (∀ m, o 0 = some m → isDeadlockMsg m = false →
        upsert_retry o = .raised 1 [] m)
    ∧ (∀ m0 m, o 0 = some m0 → isDeadlockMsg m0 = true → o 1 = some m →
        isDeadlockMsg m = false → upsert_retry o = .raised 2 [2] m)
    ∧ (∀ m0 m1 m, o 0 = some m0 → isDeadlockMsg m0 = true → o 1 = some m1 →
        isDeadlockMsg m1 = true → o 2 = some m →
        upsert_retry o = .raised 3 [2, 4] m)
    ∧ (o 0 = none → upsert_retry o = .committed 1 [])
    ∧ (∀ m0, o 0 = some m0 → isDeadlockMsg m0 = true → o 1 = none →
        upsert_retry o = .committed 2 [2])
    ∧ (∀ m0 m1, o 0 = some m0 → isDeadlockMsg m0 = true → o 1 = some m1 →
        isDeadlockMsg m1 = true → o 2 = none →
        upsert_retry o = .committed 3 [2, 4]) := by
  have hmain : attemptsOf (upsert_retry o) ≤ 3
      ∧ (∀ k, k + 1 < attemptsOf (upsert_retry o) →
          ∃ m, o k = some m ∧ isDeadlockMsg m = true)
      ∧ delaysOf (upsert_retry o)
          = (List.range (attemptsOf (upsert_retry o) - 1)).map (fun j => (j + 1) * 2)
      ∧ List.Chain' (fun a b => a < b) (delaysOf (upsert_retry o)) := by
    rcases h0 : o 0 with - | m0
    · rw [upsert_trace_ok0 o h0]
      refine ⟨by simp [attemptsOf], ?_, by simp [attemptsOf, delaysOf], by simp [delaysOf]⟩
      intro k hk
      simp [attemptsOf] at hk
    · rcases hd0 : isDeadlockMsg m0 with - | -
      · rw [upsert_trace_fail0 o m0 h0 hd0]
        refine ⟨by simp [attemptsOf], ?_, by simp [attemptsOf, delaysOf],
          by simp [delaysOf]⟩
        intro k hk
        simp [attemptsOf] at hk
      · rcases h1 : o 1 with - | m1
        · rw [upsert_trace_ok1 o m0 h0 hd0 h1]
          refine ⟨by simp [attemptsOf], ?_, rfl, by simp [delaysOf]⟩
          intro k hk
          simp [attemptsOf] at hk
          have hk0 : k = 0 := by omega
          subst hk0
          exact ⟨m0, h0, hd0⟩
        · rcases hd1 : isDeadlockMsg m1 with - | -
          · rw [upsert_trace_fail1 o m0 m1 h0 hd0 h1 hd1]
            refine ⟨by simp [attemptsOf], ?_, rfl, by simp [delaysOf]⟩
            intro k hk
            simp [attemptsOf] at hk
            have hk0 : k = 0 := by omega
            subst hk0
            exact ⟨m0, h0, hd0⟩
          · have hstep : ∀ k, k + 1 < 3 → ∃ m, o k = some m ∧ isDeadlockMsg m = true := by
              intro k hk
              have : k = 0 ∨ k = 1 := by omega
              rcases this with rfl | rfl
              · exact ⟨m0, h0, hd0⟩
              · exact ⟨m1, h1, hd1⟩
            rcases h2 : o 2 with - | m2
            · rw [upsert_trace_ok2 o m0 m1 h0 hd0 h1 hd1 h2]
              refine ⟨by simp [attemptsOf], ?_, rfl,
                by norm_num [delaysOf, List.chain'_cons]⟩
              intro k hk
              simp [attemptsOf] at hk
              exact hstep k (by omega)
            · rw [upsert_trace_fail2 o m0 m1 m2 h0 hd0 h1 hd1 h2]
              refine ⟨by simp [attemptsOf], ?_, rfl,
                by norm_num [delaysOf, List.chain'_cons]⟩
              intro k hk
              simp [attemptsOf] at hk
              exact hstep k (by omega)
  refine ⟨hmain.1, hmain.2.1, hmain.2.2.1, hmain.2.2.2, ?_, ?_, ?_, ?_, ?_, ?_⟩
  · intro m h0 hd
    exact upsert_trace_fail0 o m h0 hd
  · intro m0 m h0 hd0 h1 hd
    exact upsert_trace_fail1 o m0 m h0 hd0 h1 hd
  · intro m0 m1 m h0 hd0 h1 hd1 h2
    exact upsert_trace_fail2 o m0 m1 m h0 hd0 h1 hd1 h2
  · intro h0
    exact upsert_trace_ok0 o h0
  · intro m0 h0 hd0 h1
    exact upsert_trace_ok1 o m0 h0 hd0 h1
  · intro m0 m1 h0 hd0 h1 hd1 h2
    exact upsert_trace_ok2 o m0 m1 h0 hd0 h1 hd1 h2

/-- A run whose first two attempts deadlock (`'1205'` / `'Deadlock'`
messages) and whose third commits. -/
def sampleOutcomes : ℕ → Option String
  | 0 => some "Transaction (Process ID 52) was deadlocked ... error 1205"
  | 1 => some "Deadlock victim"
  | _ => none

/-- **C6, witness.** The retry-policy theorem applied to a run with two
deadlock-classified failures followed by a successful commit. -/
theorem upsert_retry_policy_witness :
    attemptsOf (upsert_retry sampleOutcomes) ≤ 3
    ∧ (∀ k, k + 1 < attemptsOf (upsert_retry sampleOutcomes) →
        ∃ m, sampleOutcomes k = some m ∧ isDeadlockMsg m = true)
    ∧ delaysOf (upsert_retry sampleOutcomes)
        = (List.range (attemptsOf (upsert_retry sampleOutcomes) - 1)).map
            (fun j => (j + 1) * 2)
    ∧ List.Chain' (fun a b => a < b) (delaysOf (upsert_retry sampleOutcomes))
    ∧ (∀ m, sampleOutcomes 0 = some m → isDeadlockMsg m = false →
        upsert_retry sampleOutcomes = .raised 1 [] m)
    ∧ (∀ m0 m, sampleOutcomes 0 = some m0 → isDeadlockMsg m0 = true →
        sampleOutcomes 1 = some m → isDeadlockMsg m = false →
        upsert_retry sampleOutcomes = .raised 2 [2] m)
    ∧ (∀ m0 m1 m, sampleOutcomes 0 = some m0 → isDeadlockMsg m0 = true →
        sampleOutcomes 1 = some m1 → isDeadlockMsg m1 = true →
        sampleOutcomes 2 = some m →
        upsert_retry sampleOutcomes = .raised 3 [2, 4] m)
    ∧ (sampleOutcomes 0 = none → upsert_retry sampleOutcomes = .committed 1 [])
    ∧ (∀ m0, sampleOutcomes 0 = some m0 → isDeadlockMsg m0 = true →
        sampleOutcomes 1 = none → upsert_retry sampleOutcomes = .committed 2 [2])
    ∧ (∀ m0 m1, sampleOutcomes 0 = some m0 → isDeadlockMsg m0 = true →
        sampleOutcomes 1 = some m1 → isDeadlockMsg m1 = true →
        sampleOutcomes 2 = none →
        upsert_retry sampleOutcomes = .committed 3 [2, 4]) :=
  upsert_retry_policy sampleOutcomes

end SectorFlux

namespace SectorFlux

/-! ## C7: `_create_retry_session` and the chunk loop's error handling

```
retries = Retry(total=5, backoff_factor=1,
                status_forcelist=[429, 500, 502, 503, 504],
                allowed_methods=["GET"])
```

urllib3 semantics for one `session.get`: a status in the forcelist consumes
one of the 5 retries and re-sends the *same* request (same URL, same date
range — the chunk cursor is untouched while the adapter retries); a status
outside the forcelist is returned; a forcelist status with no retries left
raises `MaxRetryError`. In `_fetch_and_store_prices` that exception is
caught per chunk (`except ... logger.warning ... `), the chunk contributes
no records, and the cursor advances to the next chunk. -/

def statusForcelist : List ℕ := [429, 500, 502, 503, 504]

def retryTotal : ℕ := 5

/-- One `session.get` through the retry adapter: `responses n` is the HTTP
status of the `n`-th request sent for this one URL; `remaining` counts the
retries left. Returns the outcome and the number of requests sent. -/
def sessionGetGo (responses : ℕ → ℕ) : ℕ → ℕ → Except String ℕ × ℕ
  | 0, attempt =>
    if responses attempt ∈ statusForcelist then (.error "MaxRetryError", attempt + 1)
    else (.ok (responses attempt), attempt + 1)
  | remaining + 1, attempt =>
    if responses attempt ∈ statusForcelist then
      sessionGetGo responses remaining (attempt + 1)
    else (.ok (responses attempt), attempt + 1)

def sessionGet (responses : ℕ → ℕ) : Except String ℕ × ℕ :=
  sessionGetGo responses retryTotal 0

/-- The fetch loop's per-chunk accumulation: a chunk whose fetch raises is
caught and contributes nothing; the loop proceeds with the next chunk. -/
def collectPrices {α : Type} (fetch : ℤ × ℤ → Except String (List α)) :
    List (ℤ × ℤ) → List α
  | [] => []
  | c :: rest =>
    match fetch c with
    | .ok items => items ++ collectPrices fetch rest
    | .error _ => collectPrices fetch rest

theorem sessionGetGo_spec (responses : ℕ → ℕ) :
    ∀ (remaining attempt : ℕ),
      (sessionGetGo responses remaining attempt).2 ≤ attempt + remaining + 1
      ∧ ((sessionGetGo responses remaining attempt).1 = .error "MaxRetryError"
          ↔ ∀ n, attempt ≤ n → n ≤ attempt + remaining → responses n ∈ statusForcelist)
      ∧ (∀ st, (sessionGetGo responses remaining attempt).1 = .ok st →
          ∃ n, attempt ≤ n ∧ n ≤ attempt + remaining ∧ responses n = st
            ∧ st ∉ statusForcelist
            ∧ ∀ j, attempt ≤ j → j < n → responses j ∈ statusForcelist) := by
  intro remaining
  induction remaining with
  | zero =>
    intro attempt
    by_cases h : responses attempt ∈ statusForcelist
    · rw [sessionGetGo, if_pos h]
      refine ⟨by omega, ?_, ?_⟩
      · constructor
        · intro _ n h1 h2
          have he : n = attempt := by omega
          subst he
          exact h
        · intro _
          rfl
      · intro st hst
        cases hst
    · rw [sessionGetGo, if_neg h]
      refine ⟨by omega, ?_, ?_⟩
      · constructor
        · intro hc
          cases hc
        · intro hall
          exact absurd (hall attempt (le_refl _) (by omega)) h
      · intro st hst
        rcases Except.ok.inj hst with rfl
        exact ⟨attempt, le_refl _, by omega, rfl, h, fun j h1 h2 => by omega⟩
  | succ remaining ih =>
    intro attempt
    by_cases h : responses attempt ∈ statusForcelist
    · rw [sessionGetGo, if_pos h]
      rcases ih (attempt + 1) with ⟨hle, hiff, hok⟩
      refine ⟨by omega, ?_, ?_⟩
      · rw [hiff]
        constructor
        · intro hall n h1 h2
          rcases Nat.eq_or_lt_of_le h1 with rfl | hlt
          · exact h
          · exact hall n (by omega) (by omega)
        · intro hall n h1 h2
          exact hall n (by omega) (by omega)
      · intro st hst
        rcases hok st hst with ⟨n, h1, h2, h3, h4, h5⟩
        refine ⟨n, by omega, by omega, h3, h4, ?_⟩
        intro j hj1 hj2
        rcases Nat.eq_or_lt_of_le hj1 with rfl | hlt
        · exact h
        · exact h5 j (by omega) hj2
    · rw [sessionGetGo, if_neg h]
      refine ⟨by omega, ?_, ?_⟩
      · constructor
        · intro hc
          cases hc
        · intro hall
          exact absurd (hall attempt (le_refl _) (by omega)) h
      · intro st hst
        rcases Except.ok.inj hst with rfl
        exact ⟨attempt, le_refl _, by omega, rfl, h, fun j h1 h2 => by omega⟩

/-- **C7, amended.** On rate-limit (and other forcelisted) statuses the
HTTP layer re-sends the *same* request — the chunk cursor does not advance
during retries — with bounded attempts: at most `total + 1 = 6` requests,
not indefinitely. `MaxRetryError` is raised iff all 6 requests for the
range returned a forcelisted status (e.g. persistent 429); a success
returns the first non-forcelisted status. When the fetch of a chunk
ultimately raises, the loop catches the error, the chunk contributes zero
records, and the cursor advances: that range is skipped. -/
theorem rate_limit_retry_policy (responses : ℕ → ℕ) :
    (sessionGet responses).2 ≤ retryTotal + 1
    ∧ ((sessionGet responses).1 = .error "MaxRetryError"
        ↔ ∀ n ≤ retryTotal, responses n ∈ statusForcelist)
    ∧ (∀ st, (sessionGet responses).1 = .ok st →
        ∃ n ≤ retryTotal, responses n = st ∧ st ∉ statusForcelist
          ∧ ∀ j < n, responses j ∈ statusForcelist)
    ∧ (∀ (fetch : ℤ × ℤ → Except String (List ℕ)) (c : ℤ × ℤ)
          (rest : List (ℤ × ℤ)) (e : String),
        fetch c = .error e →
          collectPrices fetch (c :: rest) = collectPrices fetch rest) := by
  rcases sessionGetGo_spec responses retryTotal 0 with ⟨hle, hiff, hok⟩
  refine ⟨by simpa using hle, ?_, ?_, ?_⟩
  · rw [show sessionGet responses = sessionGetGo responses retryTotal 0 from rfl, hiff]
    constructor
    · intro hall n hn
      exact hall n (by omega) (by omega)
    · intro hall n h1 h2
      exact hall n (by omega)
  · intro st hst
    rcases hok st hst with ⟨n, h1, h2, h3, h4, h5⟩
    exact ⟨n, by omega, h3, h4, fun j hj => h5 j (by omega) hj⟩
  · intro fetch c rest e hfc
    rw [collectPrices, hfc]

/-- **C7, counterexample.** Under a permanent HTTP 429 the session does not
retry indefinitely: it raises `MaxRetryError` after exactly 6 requests; and
in the chunk loop a range whose fetch raises *is* skipped — here the first
of two chunks yields no records while the loop continues with the second. -/
theorem rate_limit_gives_up_and_skips :
    sessionGet (fun _ => 429) = (.error "MaxRetryError", 6)
    ∧ collectPrices
        (fun c => if c = ((-1825 : ℤ), (0 : ℤ)) then .error "MaxRetryError"
                  else .ok [c.2])
        [((-1825 : ℤ), (0 : ℤ)), ((-3651 : ℤ), (-1826 : ℤ))]
      = [(-1826 : ℤ)] := by
  refine ⟨rfl, rfl⟩

end SectorFlux

namespace SectorFlux

/-- **C7 amended, witness:** the retry-policy theorem applied to a server
that always answers 200. -/
theorem rate_limit_retry_policy_witness :
    (sessionGet (fun _ => 200)).2 ≤ retryTotal + 1
    ∧ ((sessionGet (fun _ => 200)).1 = .error "MaxRetryError"
        ↔ ∀ n ≤ retryTotal, (fun _ => 200 : ℕ → ℕ) n ∈ statusForcelist)
    ∧ (∀ st, (sessionGet (fun _ => 200)).1 = .ok st →
        ∃ n ≤ retryTotal, (fun _ => 200 : ℕ → ℕ) n = st ∧ st ∉ statusForcelist
          ∧ ∀ j < n, (fun _ => 200 : ℕ → ℕ) j ∈ statusForcelist)
    ∧ (∀ (fetch : ℤ × ℤ → Except String (List ℕ)) (c : ℤ × ℤ)
          (rest : List (ℤ × ℤ)) (e : String),
        fetch c = .error e →
          collectPrices fetch (c :: rest) = collectPrices fetch rest) :=
  rate_limit_retry_policy (fun _ => 200)

/-! ## C8: provider response shapes

A provider price response is either a JSON array of records, a JSON object
with record-list fields, or some other value. -/

inductive PResp (α : Type) where
  | arr (items : List α)
  | obj (fields : List (String × List α))
  | otherVal
deriving DecidableEq

/-- The live fetch path's normalization (`_fetch_and_store_prices`):

```
if isinstance(p_resp, dict) and 'historical' in p_resp:
    all_prices.extend(p_resp['historical'])
elif isinstance(p_resp, list):
    all_prices.extend(p_resp)
```

anything else contributes zero records. -/
def crawlerNormalize {α : Type} : PResp α → List α
  | .obj fields =>
    match fields.lookup "historical" with
    | some items => items
    | none => []
  | .arr items => items
  | .otherVal => []

/-- The legacy probe's normalization
(`old_files/main_fmp_crawler.py::fetch_historical_prices_safe`): bare list,
`"historical"` key, or `"data"` key, with empty results mapped to `None`. -/
def fetch_historical_prices_safe {α : Type} (resp : PResp α) : Option (List α) :=
  match (match resp with
    | .arr items => some items
    | .obj fields =>
      match fields.lookup "historical" with
      | some items => some items
      | none => fields.lookup "data"
    | .otherVal => none) with
  | some items => if items.isEmpty then none else some items
  | none => none

/-- **C8, counterexample.** The live fetch path does not normalize the
`"data"`-keyed object shape: such a response contributes zero records,
whereas the claim says its record list is recovered (only the legacy
one-off probe handles `"data"`). -/
theorem data_key_not_normalized :
    crawlerNormalize (PResp.obj [("data", [1])]) = ([] : List ℕ)
    ∧ ([1] : List ℕ) ≠ []
    ∧ fetch_historical_prices_safe (PResp.obj [("data", [1])]) = some [1] := by
  refine ⟨rfl, by decide, rfl⟩

/-- **C8, amended.** The live fetch path normalizes a bare list and an
object with a `"historical"` list into the record list; an object without
`"historical"` (in particular the `"data"` shape, which only the legacy
probe script recognizes), any other value, or an empty payload yields zero
records — never an error — and the caller proceeds. -/
theorem response_shape_normalization {α : Type} (items : List α)
    (fields : List (String × List α)) :
    crawlerNormalize (PResp.arr items) = items
    ∧ crawlerNormalize (PResp.obj (("historical", items) :: fields)) = items
    ∧ (fields.lookup "historical" = none → crawlerNormalize (PResp.obj fields) = [])
    ∧ crawlerNormalize (PResp.otherVal : PResp α) = []
    ∧ crawlerNormalize (PResp.arr ([] : List α)) = []
    ∧ (fields.lookup "historical" = none →
        fetch_historical_prices_safe (PResp.obj (("data", items) :: fields))
          = (if items.isEmpty then none else some items)) := by
  refine ⟨rfl, ?_, ?_, rfl, rfl, ?_⟩
  · rw [crawlerNormalize]
    simp [List.lookup]
  · intro h
    rw [crawlerNormalize, h]
  · intro hh
    rw [fetch_historical_prices_safe]
    simp [List.lookup, hh]

/-- **C8 amended, witness.** The shape theorem at a one-record list and a
`"data"` field, with its side conditions discharged. -/
theorem response_shape_normalization_witness :
    crawlerNormalize (PResp.arr [7]) = [7]
    ∧ crawlerNormalize (PResp.obj (("historical", [7]) :: [("data", [9])])) = [7]
    ∧ crawlerNormalize (PResp.obj [("data", [9])]) = ([] : List ℕ)
    ∧ crawlerNormalize (PResp.otherVal : PResp ℕ) = []
    ∧ crawlerNormalize (PResp.arr ([] : List ℕ)) = []
    ∧ fetch_historical_prices_safe (PResp.obj (("data", [7]) :: [("data", [9])]))
        = (if ([7] : List ℕ).isEmpty then none else some [7]) :=
  have h := response_shape_normalization [7] [("data", [9])]
  ⟨h.1, h.2.1, h.2.2.1 (by decide), h.2.2.2.1, h.2.2.2.2.1,
    h.2.2.2.2.2 (by decide)⟩

end SectorFlux

namespace SectorFlux

/-! ## C9: the 20-day rolling z-score of `prepare_tsf_features`

```
WITH CTE_Stats AS (
  SELECT ..., AVG(Log_Return_RS) OVER (... ROWS BETWEEN 19 PRECEDING AND
    CURRENT ROW) AS Avg_20D,
  STDEV(Log_Return_RS) OVER (...) AS Std_20D ...)
UPDATE T SET T.ZScore_20D = (T.Log_Return_RS - C.Avg_20D) / NULLIF(C.Std_20D, 0)
```

`STDEV` is the sample standard deviation: `NULL` when the window holds
fewer than 2 values, `0` exactly when the sample variance is `0`.
`NULLIF(Std_20D, 0)` turns the `0` case into `NULL`, and division by `NULL`
is `NULL`. The (generally irrational) square root is kept symbolic: a
non-null z-score is represented as the pair of its numerator and the
variance under the root. -/

def mean (w : List ℚ) : ℚ := w.sum / w.length

/-- Sample variance (the square of SQL `STDEV`): `NULL` for fewer than 2
values. -/
def sampleVar (w : List ℚ) : Option ℚ :=
  if w.length < 2 then none
  else some ((w.map (fun x => (x - mean w) ^ 2)).sum / ((w.length : ℚ) - 1))

/-- A SQL float of the form `num / SQRT(varr)`, or `NULL`. -/
inductive SqlZScore where
  | null
  | val (num : ℚ) (varr : ℚ)
deriving DecidableEq

/-- `(T.Log_Return_RS - C.Avg_20D) / NULLIF(C.Std_20D, 0)` for one row:
`x` is the row's LogReturnRS, `w` its trailing 20-row window. -/
def zscore20D (x : ℚ) (w : List ℚ) : SqlZScore :=
  match sampleVar w with
  | none => .null
  | some v => if v = 0 then .null else .val (x - mean w) v

/-- The window `ROWS BETWEEN 19 PRECEDING AND CURRENT ROW` of a symbol's
LogReturnRS series at row index `idx`. -/
def trailing20 (vals : List ℚ) (idx : ℕ) : List ℚ :=
  (vals.take (idx + 1)).drop (idx + 1 - 20)

theorem mean_replicate (n : ℕ) (hn : n ≠ 0) (c : ℚ) :
    mean (List.replicate n c) = c := by
  rw [mean, List.sum_replicate, List.length_replicate, nsmul_eq_mul, mul_comm,
    mul_div_assoc, div_self (by exact_mod_cast hn), mul_one]

theorem sampleVar_replicate20 (c : ℚ) :
    sampleVar (List.replicate 20 c) = some 0 := by
  rw [sampleVar, if_neg (by simp)]
  rw [mean_replicate 20 (by norm_num) c, List.map_replicate]
  simp

/-- **C9.** The z-score computation never divides by zero: a window with
fewer than 2 observations has `STDEV = NULL` and yields `ZScore20D = NULL`;
a window with zero sample variance (zero standard deviation) is nulled by
`NULLIF(·, 0)` and yields `ZScore20D = NULL`; in particular 20 identical
LogReturnRS values give zero variance, and a symbol whose series is 20
identical values gets `ZScore20D = NULL` at its 20th row. -/
theorem zscore_degenerate :
    (∀ (x : ℚ) (w : List ℚ), w.length < 2 → zscore20D x w = .null)
    ∧ (∀ (x : ℚ) (w : List ℚ), sampleVar w = some 0 → zscore20D x w = .null)
    ∧ (∀ c : ℚ, sampleVar (List.replicate 20 c) = some 0)
    ∧ (∀ x c : ℚ, zscore20D x (trailing20 (List.replicate 20 c) 19) = .null) := by
  have h2 : ∀ (x : ℚ) (w : List ℚ), sampleVar w = some 0 → zscore20D x w = .null := by
    intro x w h
    rw [zscore20D, h]
    simp
  refine ⟨?_, h2, sampleVar_replicate20, ?_⟩
  · intro x w h
    rw [zscore20D, sampleVar, if_pos h]
  · intro x c
    have htw : trailing20 (List.replicate 20 c) 19 = List.replicate 20 c := by
      rw [trailing20]
      simp
    rw [htw]
    exact h2 x _ (sampleVar_replicate20 c)

/-- **C9, witness.** The degenerate cases at concrete inputs: an empty
window, a two-value zero-variance window, and a series of 20 identical
values. -/
theorem zscore_degenerate_witness :
    zscore20D 1 [] = .null
    ∧ zscore20D 3 [5, 5] = .null
    ∧ sampleVar (List.replicate 20 (2 : ℚ)) = some 0
    ∧ zscore20D 4 (trailing20 (List.replicate 20 (7 : ℚ)) 19) = .null :=
  ⟨zscore_degenerate.1 1 [] (by norm_num),
   zscore_degenerate.2.1 3 [5, 5] (by norm_num [sampleVar, mean]),
   zscore_degenerate.2.2.1 2,
   zscore_degenerate.2.2.2 4 7⟩

end SectorFlux
